import Mathlib

/-!
Fawry e-commerce checkout: a shallow embedding of `Fawry_E-commerce.cpp`.

Modelling conventions.

* A C++ `double` is a `Dbl`: an IEEE-754 binary64 value, that is NaN, an
  infinity or a finite value given by the rational it denotes.  Every
  arithmetic operation computes the exact result and rounds it to the nearest
  binary64 value, ties to even, with gradual underflow and overflow to an
  infinity; comparisons with NaN are false.  Each operation is rounded on its
  own, as on x86-64 with SSE2: there is no fused multiply-add and no extended
  precision of intermediate results.  The sign of a zero and the payload
  of a NaN are not represented: the program never divides by a variable, so
  they change no comparison and no computed value other than the sign of a
  zero.
* A C++ `int` is 32 bits wide, and a model value of that type is an `Int` that
  the code receives in the `int` range.  The one `int` computation that can
  leave the range, `quantity -= amount`, wraps modulo `2 ^ 32` (`wrapInt`), as
  it does on the two's-complement targets the program is built for (the
  language itself leaves signed overflow undefined).  The offsets of
  `createDate` and `isExpired` (`- 1900`, `+ 1900`, `- 1`, `+ 1`) cancel modulo
  `2 ^ 32` for every date that `createDate` builds, as all dates of the program
  are, so they are written without wrapping.
* A `Product*` is an address (`Nat`) into a `Heap`, the store of product
  objects; two cart items holding the same address share one stock counter.
* The globals `currentYear` / `currentMonth` are the fields of a `Clock` that
  is passed explicitly.
* Text written to `cout` is a list of structured `Msg` values, one for each
  block of output, carrying the printed numbers unformatted.
-/

namespace Fawry

/-! ## Machine numbers -/

/-- The value of a 32-bit `int` computation whose exact result is `x`. -/
def wrapInt (x : Int) : Int := (x + 2147483648) % 4294967296 - 2147483648

/-- The value `x` is in the range of `int`. -/
def inIntRange (x : Int) : Prop := -2147483648 ≤ x ∧ x ≤ 2147483647

instance (x : Int) : Decidable (inIntRange x) :=
  inferInstanceAs (Decidable (-2147483648 ≤ x ∧ x ≤ 2147483647))

deriving instance DecidableEq for Except

/-- A `double`. -/
inductive Dbl where
  | nan
  | inf (negative : Bool)
  | fin (q : ℚ)
deriving DecidableEq, Repr

/-- Floor of the binary logarithm of `n`, by halving at most `fuel` times. -/
def Dbl.log2Fuel : Nat → Nat → Nat
  | 0, _ => 0
  | fuel + 1, n => if 2 ≤ n then Dbl.log2Fuel fuel (n / 2) + 1 else 0

/-- Floor of the binary logarithm of a positive rational. -/
def Dbl.log2 (x : ℚ) : Int :=
  if (2 : ℚ) ^ ((Dbl.log2Fuel x.num.natAbs x.num.natAbs : Int) -
      (Dbl.log2Fuel x.den x.den : Int)) ≤ x then
    (Dbl.log2Fuel x.num.natAbs x.num.natAbs : Int) - (Dbl.log2Fuel x.den x.den : Int)
  else
    (Dbl.log2Fuel x.num.natAbs x.num.natAbs : Int) - (Dbl.log2Fuel x.den x.den : Int) - 1

/-- The binary exponent used to round a positive `x`: that of `x`, and `-1022`
for every `x` below the normal range. -/
def Dbl.expo (x : ℚ) : Int := max (Dbl.log2 x) (-1022)

/-- The spacing of the binary64 values around a positive `x`: 53 significant
bits. -/
def Dbl.ulp (x : ℚ) : ℚ := 2 ^ (Dbl.expo x - 52)

/-- The nearest integer, a tie going to the even one. -/
def Dbl.roundHalfEven (x : ℚ) : Int :=
  if x - ⌊x⌋ < 1 / 2 then ⌊x⌋
  else if 1 / 2 < x - ⌊x⌋ then ⌊x⌋ + 1
  else if ⌊x⌋ % 2 = 0 then ⌊x⌋ else ⌊x⌋ + 1

/-- The multiple of the spacing nearest to a positive `x`. -/
def Dbl.roundMag (x : ℚ) : ℚ := Dbl.roundHalfEven (x / Dbl.ulp x) * Dbl.ulp x

/-- The binary64 value nearest to a positive `x`: an infinity from `2 ^ 1024`. -/
def Dbl.roundPos (x : ℚ) : Dbl :=
  if (2 : ℚ) ^ (1024 : Nat) ≤ Dbl.roundMag x then Dbl.inf false else Dbl.fin (Dbl.roundMag x)

/-- Unary minus. -/
def Dbl.neg : Dbl → Dbl
  | .nan => .nan
  | .inf s => .inf (!s)
  | .fin q => .fin (-q)

/-- Rounding of an exact result to binary64. -/
def Dbl.round (x : ℚ) : Dbl :=
  if x = 0 then Dbl.fin 0
  else if 0 < x then Dbl.roundPos x
  else Dbl.neg (Dbl.roundPos (-x))

/-- Operator `+` on `double`. -/
def Dbl.add : Dbl → Dbl → Dbl
  | .nan, _ => .nan
  | _, .nan => .nan
  | .inf s, .inf t => if s = t then .inf s else .nan
  | .inf s, .fin _ => .inf s
  | .fin _, .inf t => .inf t
  | .fin a, .fin b => Dbl.round (a + b)

/-- Operator `-` on `double`. -/
def Dbl.sub (x y : Dbl) : Dbl := Dbl.add x (Dbl.neg y)

/-- Operator `*` on `double`. -/
def Dbl.mul : Dbl → Dbl → Dbl
  | .nan, _ => .nan
  | _, .nan => .nan
  | .inf s, .inf t => .inf (s != t)
  | .inf s, .fin b => if b = 0 then .nan else .inf (s != decide (b < 0))
  | .fin a, .inf t => if a = 0 then .nan else .inf (decide (a < 0) != t)
  | .fin a, .fin b => Dbl.round (a * b)

/-- Operator `/` on `double`.  A zero divisor is taken as `+0.0`; the program
divides by the constant `1000.0` only. -/
def Dbl.div : Dbl → Dbl → Dbl
  | .nan, _ => .nan
  | _, .nan => .nan
  | .inf _, .inf _ => .nan
  | .inf s, .fin b => .inf (s != decide (b < 0))
  | .fin _, .inf _ => .fin 0
  | .fin a, .fin b =>
    if b = 0 then (if a = 0 then .nan else .inf (decide (a < 0))) else Dbl.round (a / b)

/-- Function `ceil` of `<cmath>`. -/
def Dbl.ceil : Dbl → Dbl
  | .nan => .nan
  | .inf s => .inf s
  | .fin q => .fin (⌈q⌉ : ℚ)

/-- Operator `<` on `double`. -/
def Dbl.lt : Dbl → Dbl → Bool
  | .nan, _ => false
  | _, .nan => false
  | .inf s, .inf t => s && !t
  | .inf s, .fin _ => s
  | .fin _, .inf t => !t
  | .fin a, .fin b => decide (a < b)

/-- Operator `<=` on `double`. -/
def Dbl.le : Dbl → Dbl → Bool
  | .nan, _ => false
  | _, .nan => false
  | .inf s, .inf t => s || !t
  | .inf s, .fin _ => s
  | .fin _, .inf t => !t
  | .fin a, .fin b => decide (a ≤ b)

/-- Operator `>` on `double`. -/
def Dbl.gt (x y : Dbl) : Bool := Dbl.lt y x

/-- Conversion of an `int` to `double`. -/
def Dbl.ofInt (i : Int) : Dbl := Dbl.round i

/-- The value is one a `double` can hold. -/
def Dbl.isDouble : Dbl → Bool
  | .fin q => Dbl.round q == Dbl.fin q
  | _ => true

/-- The double nearest to a decimal literal of the source, such as `0.1`. -/
def Dbl.lit (q : ℚ) : Dbl := Dbl.round q

/-- The real number a finite `double` denotes (`0` for NaN and the
infinities). -/
def Dbl.toRat : Dbl → ℚ
  | .fin q => q
  | _ => 0

/-- The value is neither NaN nor `+inf`. -/
def Dbl.isPayable : Dbl → Bool
  | .nan => false
  | .inf negative => negative
  | .fin _ => true

/-- The value is `>= 0`: a finite value that is not negative, or `+inf`. -/
def Dbl.isNonneg (x : Dbl) : Bool := Dbl.le (Dbl.fin 0) x

/-- Left-to-right `double` sum of a list, from a starting value: the result of
`acc += x` for each `x` in turn. -/
def Dbl.sumFrom (init : Dbl) (xs : List Dbl) : Dbl := xs.foldl Dbl.add init

/-! ## Dates -/

/-- The fields of `struct tm` that the program writes or reads. -/
structure Tm where
  tm_year : Int
  tm_mon : Int
  tm_mday : Int
deriving DecidableEq, Repr

/-- The helper `createDate(year, month, day)`. -/
def createDate (year month day : Int) : Tm :=
  { tm_year := year - 1900, tm_mon := month - 1, tm_mday := day }

/-- The globals `currentYear` and `currentMonth`. -/
structure Clock where
  currentYear : Int
  currentMonth : Int
deriving DecidableEq, Repr

/-- The values the globals are initialised with. -/
def Clock.initial : Clock := { currentYear := 2025, currentMonth := 7 }

/-! ## Products -/

/-- The dynamic class of a product object together with the members the
derived class adds to `Product`. -/
inductive Variant where
  | plain
  | perishable (expiryDate : Tm) (weight : Dbl)
  | shippable (weight : Dbl)
deriving DecidableEq, Repr

/-- A product object: the members of the base class and the derived part. -/
structure Product where
  name : String
  price : Dbl
  quantity : Int
  variant : Variant
deriving DecidableEq, Repr

/-- The text of the `invalid_argument` thrown by the constructor. -/
def validationError : String := "Price and quantity must be positive value"

/-- Constructor `Product::Product(n, p, q)`; `Except.error` is the thrown
`invalid_argument`. -/
def Product.new (n : String) (p : Dbl) (q : Int) : Except String Product :=
  if Dbl.le p (Dbl.fin 0) = true ∨ q ≤ 0 then .error validationError
  else .ok { name := n, price := p, quantity := q, variant := .plain }

/-- Constructor `PerishableProduct::PerishableProduct(n, p, q, exp, w)`: the
base constructor runs first, then the added members are set. -/
def PerishableProduct.new (n : String) (p : Dbl) (q : Int) (exp : Tm) (w : Dbl) :
    Except String Product :=
  match Product.new n p q with
  | .error e => .error e
  | .ok base => .ok { base with variant := .perishable exp w }

/-- Constructor `ShippableProduct::ShippableProduct(n, p, q, w)`. -/
def ShippableProduct.new (n : String) (p : Dbl) (q : Int) (w : Dbl) :
    Except String Product :=
  match Product.new n p q with
  | .error e => .error e
  | .ok base => .ok { base with variant := .shippable w }

/-- Virtual `isExpired()`: `false` in the base class, overridden by
`PerishableProduct` only. -/
def Product.isExpired (clock : Clock) (p : Product) : Bool :=
  match p.variant with
  | .perishable expiryDate _ =>
    let expiryYear := expiryDate.tm_year + 1900
    let expiryMonth := expiryDate.tm_mon + 1
    if clock.currentYear > expiryYear then true
    else if clock.currentYear = expiryYear ∧ clock.currentMonth > expiryMonth then true
    else false
  | _ => false

/-- Virtual `isShippable()`. -/
def Product.isShippable (p : Product) : Bool :=
  match p.variant with
  | .plain => false
  | .perishable _ weight => Dbl.gt weight (Dbl.fin 0)
  | .shippable _ => true

/-- Virtual `getWeight()`. -/
def Product.getWeight (p : Product) : Dbl :=
  match p.variant with
  | .plain => Dbl.fin 0
  | .perishable _ weight => weight
  | .shippable weight => weight

/-- Accessor `getName()`. -/
def Product.getName (p : Product) : String := p.name

/-- Accessor `getPrice()`. -/
def Product.getPrice (p : Product) : Dbl := p.price

/-- Accessor `getQuantity()`. -/
def Product.getQuantity (p : Product) : Int := p.quantity

/-- Method `reduceQuantity(amount)`: `quantity -= amount` on `int`. -/
def Product.reduceQuantity (p : Product) (amount : Int) : Product :=
  { p with quantity := wrapInt (p.quantity - amount) }

/-- The store of product objects, by address. -/
abbrev Heap := Nat → Product

/-- Write a product object back at its address. -/
def Heap.set (heap : Heap) (addr : Nat) (p : Product) : Heap :=
  fun a => if a = addr then p else heap a

/-! ## Customer -/

/-- Class `Customer`. -/
structure Customer where
  name : String
  balance : Dbl
deriving DecidableEq, Repr

/-- Accessor `getBalance()`. -/
def Customer.getBalance (c : Customer) : Dbl := c.balance

/-- Method `pay(amount)`: the returned flag and the customer afterwards. -/
def Customer.pay (c : Customer) (amount : Dbl) : Bool × Customer :=
  if Dbl.gt amount c.balance then (false, c)
  else (true, { c with balance := Dbl.sub c.balance amount })

/-! ## Cart -/

/-- Struct `CartItem`: the address of a product and the requested quantity. -/
structure CartItem where
  product : Nat
  quantity : Int
deriving DecidableEq, Repr

/-- Class `Cart`. -/
structure Cart where
  items : List CartItem
deriving DecidableEq, Repr

/-- A default-constructed cart. -/
def Cart.empty : Cart := { items := [] }

/-- One line of a shipment notice or of a receipt: quantity, name, amount. -/
structure Line where
  quantity : Int
  name : String
  amount : Dbl
deriving DecidableEq, Repr

/-- A block of console output. -/
inductive Msg where
  | insufficientStock (name : String)
  | cartEmpty
  | itemExpired (name : String)
  | insufficientBalance
  | shipmentNotice (lines : List Line) (totalWeightKg : Dbl)
  | receipt (lines : List Line) (subtotal shipping total remaining : Dbl)
deriving DecidableEq, Repr

/-- Method `Cart::add(p, qty)`: the cart afterwards and what was printed. -/
def Cart.add (heap : Heap) (cart : Cart) (p : Nat) (qty : Int) : Cart × List Msg :=
  if qty > (heap p).getQuantity then
    (cart, [Msg.insufficientStock (heap p).getName])
  else
    ({ items := cart.items ++ [{ product := p, quantity := qty }] }, [])

/-- Accessor `getItems()`. -/
def Cart.getItems (cart : Cart) : List CartItem := cart.items

/-- Method `isEmpty()`. -/
def Cart.isEmpty (cart : Cart) : Bool := cart.items.isEmpty

/-! ## Shipping service -/

/-- The loop of `ShippingService`: the running `totalWeight` and the lines
printed so far. -/
def shippingLoop (heap : Heap) : List CartItem → Dbl → List Line → Dbl × List Line
  | [], totalWeight, lines => (totalWeight, lines)
  | item :: rest, totalWeight, lines =>
    if (heap item.product).isShippable then
      let weight := Dbl.mul (heap item.product).getWeight (Dbl.ofInt item.quantity)
      shippingLoop heap rest (Dbl.add totalWeight weight)
        (lines ++ [{ quantity := item.quantity, name := (heap item.product).getName,
                     amount := weight }])
    else shippingLoop heap rest totalWeight lines

/-- Function `ShippingService(items)`: the notice it prints. -/
def ShippingService (heap : Heap) (items : List CartItem) : List Msg :=
  let r := shippingLoop heap items (Dbl.fin 0) []
  [Msg.shipmentNotice r.2 (Dbl.div r.1 (Dbl.fin 1000))]

/-! ## Checkout -/

/-- The locals of `checkout` that its first loop updates. -/
structure Acc where
  subtotal : Dbl
  totalWeight : Dbl
  shippables : List CartItem
deriving DecidableEq, Repr

/-- The first loop of `checkout`: `Except.error name` is the early return at
an expired item, with the name that is printed. -/
def checkoutLoop (clock : Clock) (heap : Heap) : List CartItem → Acc → Except String Acc
  | [], acc => .ok acc
  | item :: rest, acc =>
    if (heap item.product).isExpired clock then .error (heap item.product).getName
    else
      let subtotal :=
        Dbl.add acc.subtotal (Dbl.mul (heap item.product).getPrice (Dbl.ofInt item.quantity))
      if (heap item.product).isShippable then
        checkoutLoop clock heap rest
          { subtotal := subtotal
            totalWeight := Dbl.add acc.totalWeight
              (Dbl.mul (heap item.product).getWeight (Dbl.ofInt item.quantity))
            shippables := acc.shippables ++ [item] }
      else
        checkoutLoop clock heap rest { acc with subtotal := subtotal }

/-- The locals of `checkout` once `total` has been computed. -/
structure Pricing where
  subtotal : Dbl
  shipping : Dbl
  totalWeight : Dbl
  shippables : List CartItem
  total : Dbl
deriving DecidableEq, Repr

/-- The shipping fee statement of `checkout`: `shipping` starts at `0.0` and is
assigned `ceil(totalWeight / 1000.0) * 10.0` when `totalWeight > 0`. -/
def shippingFee (totalWeight : Dbl) : Dbl :=
  if Dbl.gt totalWeight (Dbl.fin 0) then
    Dbl.mul (Dbl.ceil (Dbl.div totalWeight (Dbl.fin 1000))) (Dbl.fin 10)
  else Dbl.fin 0

/-- The pricing part of `checkout`, from the declaration of `subtotal` to the
computation of `total`. -/
def pricing (clock : Clock) (heap : Heap) (items : List CartItem) : Except String Pricing :=
  match checkoutLoop clock heap items
      { subtotal := Dbl.fin 0, totalWeight := Dbl.fin 0, shippables := [] } with
  | .error name => .error name
  | .ok acc =>
    let shipping := shippingFee acc.totalWeight
    .ok { subtotal := acc.subtotal
          shipping := shipping
          totalWeight := acc.totalWeight
          shippables := acc.shippables
          total := Dbl.add acc.subtotal shipping }

/-- The stock reduction loop of `checkout`. -/
def reduceStock (heap : Heap) : List CartItem → Heap
  | [] => heap
  | item :: rest =>
    reduceStock (heap.set item.product ((heap item.product).reduceQuantity item.quantity)) rest

/-- The lines of the receipt. -/
def receiptLines (heap : Heap) (items : List CartItem) : List Line :=
  items.map fun item =>
    { quantity := item.quantity, name := (heap item.product).getName,
      amount := Dbl.mul (heap item.product).getPrice (Dbl.ofInt item.quantity) }

/-- Everything `checkout` can change or print. -/
structure Result where
  heap : Heap
  customer : Customer
  cart : Cart
  out : List Msg

/-- Function `checkout(customer, cart)`. -/
def checkout (clock : Clock) (heap : Heap) (customer : Customer) (cart : Cart) : Result :=
  if cart.isEmpty then
    { heap := heap, customer := customer, cart := cart, out := [Msg.cartEmpty] }
  else
    match pricing clock heap cart.getItems with
    | .error name =>
      { heap := heap, customer := customer, cart := cart, out := [Msg.itemExpired name] }
    | .ok pr =>
      let paid := customer.pay pr.total
      if !paid.1 then
        { heap := heap, customer := paid.2, cart := cart, out := [Msg.insufficientBalance] }
      else
        let heap1 := reduceStock heap cart.getItems
        let notice := if !pr.shippables.isEmpty then ShippingService heap1 pr.shippables else []
        { heap := heap1, customer := paid.2, cart := cart
          out := notice ++
            [Msg.receipt (receiptLines heap1 cart.getItems) pr.subtotal pr.shipping pr.total
              paid.2.getBalance] }

/-- A message that reports a rejected checkout. -/
def Msg.isRejection : Msg → Bool
  | .cartEmpty => true
  | .itemExpired _ => true
  | .insufficientBalance => true
  | _ => false

/-- A message that is a checkout receipt. -/
def Msg.isReceipt : Msg → Bool
  | .receipt _ _ _ _ _ => true
  | _ => false

/-- The checkout returned early with a rejection message. -/
def Result.rejected (r : Result) : Bool := r.out.any Msg.isRejection

/-- The checkout ran to its end and printed the receipt. -/
def Result.succeeded (r : Result) : Bool := r.out.any Msg.isReceipt

/-! ## Closed forms of what the loops compute -/

/-- The `double` products `price * quantity` of the items, in cart order. -/
def linePrices (heap : Heap) (items : List CartItem) : List Dbl :=
  items.map fun it => Dbl.mul (heap it.product).getPrice (Dbl.ofInt it.quantity)

/-- The `double` products `weight * quantity` of the items, in cart order. -/
def lineWeights (heap : Heap) (items : List CartItem) : List Dbl :=
  items.map fun it => Dbl.mul (heap it.product).getWeight (Dbl.ofInt it.quantity)

/-- The `double` sum of `price * quantity` over the items, in cart order from
`0.0`. -/
def subtotalOf (heap : Heap) (items : List CartItem) : Dbl :=
  Dbl.sumFrom (Dbl.fin 0) (linePrices heap items)

/-- The items whose product is shippable, in cart order. -/
def shippablesOf (heap : Heap) (items : List CartItem) : List CartItem :=
  items.filter fun it => (heap it.product).isShippable

/-- The `double` sum of `weight * quantity` over the shippable items, in cart
order from `0.0`. -/
def totalWeightOf (heap : Heap) (items : List CartItem) : Dbl :=
  Dbl.sumFrom (Dbl.fin 0) (lineWeights heap (shippablesOf heap items))

/-- The `double` sum of subtotal and shipping fee. -/
def totalOf (heap : Heap) (items : List CartItem) : Dbl :=
  Dbl.add (subtotalOf heap items) (shippingFee (totalWeightOf heap items))

/-- Sum of the requested quantities of the items that hold address `a`. -/
def requestedOf (items : List CartItem) (a : Nat) : Int :=
  ((items.filter fun it => it.product = a).map fun it => it.quantity).sum

/-- The cart has an item whose product is expired. -/
def hasExpired (clock : Clock) (heap : Heap) (items : List CartItem) : Bool :=
  items.any fun it => (heap it.product).isExpired clock

/-- A sequence of `pay` calls on one customer, the returned flags dropped. -/
def payAll (c : Customer) : List Dbl → Customer
  | [] => c
  | amount :: rest => payAll (c.pay amount).2 rest

/-- The total that `checkout` hands to `pay`, when it gets that far, is neither
NaN nor `+inf`. -/
def totalPayable (clock : Clock) (heap : Heap) (cart : Cart) : Bool :=
  cart.isEmpty ||
    match pricing clock heap cart.getItems with
    | .ok pr => pr.total.isPayable
    | .error _ => true

/-- A sequence of `checkout` calls by one customer, one for each cart, on the
shared product store. -/
def checkoutAll (clock : Clock) : Heap → Customer → List Cart → Heap × Customer
  | heap, c, [] => (heap, c)
  | heap, c, cart :: rest =>
    checkoutAll clock (checkout clock heap c cart).heap (checkout clock heap c cart).customer rest

/-- In a sequence of `checkout` calls every total handed to `pay` is neither NaN
nor `+inf`. -/
def allTotalsPayable (clock : Clock) : Heap → Customer → List Cart → Bool
  | _, _, [] => true
  | heap, c, cart :: rest =>
    totalPayable clock heap cart &&
      allTotalsPayable clock (checkout clock heap c cart).heap
        (checkout clock heap c cart).customer rest

/-- The whole state after `Cart::add`.  The method calls only the `const`
accessors `getQuantity` and `getName` on the product, so the product store it
leaves is the one it was given. -/
structure AddResult where
  heap : Heap
  cart : Cart
  out : List Msg

/-- Method `Cart::add(p, qty)` together with the product store it leaves. -/
def Cart.addStep (heap : Heap) (cart : Cart) (p : Nat) (qty : Int) : AddResult :=
  { heap := heap, cart := (cart.add heap p qty).1, out := (cart.add heap p qty).2 }

/-- A sequence of `Cart::add` calls on one cart, each request a product address
and a quantity, with no other call in between. -/
def addAll (heap : Heap) (cart : Cart) : List (Nat × Int) → Cart
  | [] => cart
  | req :: rest => addAll (cart.addStep heap req.1 req.2).heap
      (cart.addStep heap req.1 req.2).cart rest

/-- The requests a call of `add` accepts: those that do not exceed the stock. -/
def acceptedOf (heap : Heap) (reqs : List (Nat × Int)) : List (Nat × Int) :=
  reqs.filter fun req => !decide (req.2 > (heap req.1).quantity)

/-! ## The scenario of `main` -/

/-- The catalog built at the start of `main`: Cheese at 0, Biscuits at 1, TV at
2, ScratchCard at 3 and, elsewhere, ships. -/
def mainHeap : Heap := fun a =>
  match a with
  | 0 => { name := "Cheese", price := Dbl.fin 100, quantity := 10,
           variant := .perishable (createDate 2025 7 10) (Dbl.fin 400) }
  | 1 => { name := "Biscuits", price := Dbl.fin 150, quantity := 5,
           variant := .perishable (createDate 2026 1 1) (Dbl.fin 0) }
  | 2 => { name := "TV", price := Dbl.fin 600, quantity := 3,
           variant := .shippable (Dbl.fin 7000) }
  | 3 => { name := "ScratchCard", price := Dbl.fin 50, quantity := 20, variant := .plain }
  | _ => { name := "ships", price := Dbl.fin 20, quantity := 5,
           variant := .perishable (createDate 2025 1 1) (Dbl.fin 0) }

/-- The customer Ahmed. -/
def ahmed : Customer := { name := "Ahmed", balance := Dbl.fin 5000 }

/-- The cart of the spec's worked example: Cheese x2, TV x3. -/
def cheeseTvCart : Cart := { items := [⟨0, 2⟩, ⟨2, 3⟩] }

/-- The customer Yasser. -/
def yasser : Customer := { name := "Yasser", balance := Dbl.fin 100 }

/-- The customer Anas. -/
def anas : Customer := { name := "Anas", balance := Dbl.fin 10000 }

/-- The customer Yassen. -/
def yassen : Customer := { name := "Yassen", balance := Dbl.fin 10000 }

/-- The requests of Ahmed's cart in `main`: Cheese x2, TV x3, ScratchCard x1. -/
def ahmedRequests : List (Nat × Int) := [(0, 2), (2, 3), (3, 1)]

/-- The cart of Ahmed in `main`, built by its three `add` calls. -/
def ahmedCart : Cart := addAll mainHeap Cart.empty ahmedRequests

/-- A store whose products all have the price NaN, as `Product("Ghost", NAN, 5)`
builds them. -/
def ghostHeap : Heap := fun _ =>
  { name := "Ghost", price := Dbl.nan, quantity := 5, variant := .plain }

/-- A store whose products all cost 1. -/
def coinHeap : Heap := fun _ =>
  { name := "Coin", price := Dbl.fin 1, quantity := 5, variant := .plain }

/-- A cart holding one unit of the product at address 0. -/
def oneItemCart : Cart := { items := [⟨0, 1⟩] }

/-- A customer with the balance `1e16`. -/
def croesus : Customer := { name := "Croesus", balance := Dbl.fin 10000000000000000 }


/-! ## Lemmas on rounding -/

theorem Dbl.log2Fuel_spec (fuel n : Nat) (hn : 1 ≤ n) (hf : n ≤ fuel) :
    2 ^ Dbl.log2Fuel fuel n ≤ n ∧ n < 2 ^ (Dbl.log2Fuel fuel n + 1) := by
  induction fuel generalizing n with
  | zero => omega
  | succ f ih =>
    by_cases h2 : 2 ≤ n
    · have h := ih (n / 2) (by omega) (by omega)
      simp only [Dbl.log2Fuel, h2, if_true]
      rw [pow_succ, pow_succ, pow_succ]
      rw [pow_succ] at h
      omega
    · have h1 : n = 1 := by omega
      subst h1
      simp [Dbl.log2Fuel]

theorem Dbl.log2_spec (x : ℚ) (hx : 0 < x) :
    (2 : ℚ) ^ Dbl.log2 x ≤ x ∧ x < (2 : ℚ) ^ (Dbl.log2 x + 1) := by
  unfold Dbl.log2
  have hnum : 0 < x.num := Rat.num_pos.mpr hx
  have hn1 : 1 ≤ x.num.natAbs := by omega
  have hd1 : 1 ≤ x.den := x.den_pos
  obtain ⟨ha1, ha2⟩ := Dbl.log2Fuel_spec x.num.natAbs x.num.natAbs hn1 le_rfl
  obtain ⟨hb1, hb2⟩ := Dbl.log2Fuel_spec x.den x.den hd1 le_rfl
  generalize Dbl.log2Fuel x.num.natAbs x.num.natAbs = a at ha1 ha2 ⊢
  generalize Dbl.log2Fuel x.den x.den = b at hb1 hb2 ⊢
  have hxeq : x = (x.num.natAbs : ℚ) / (x.den : ℚ) := by
    have h1 : ((x.num.natAbs : Int) : ℚ) = (x.num : ℚ) := by
      rw [Int.natAbs_of_nonneg hnum.le]
    have h2 : ((x.num.natAbs : Int) : ℚ) = (x.num.natAbs : ℚ) := Int.cast_natCast _
    rw [← h2, h1]
    exact (Rat.num_div_den x).symm
  have hnq1 : ((2 : ℚ) ^ a) ≤ (x.num.natAbs : ℚ) := by exact_mod_cast ha1
  have hnq2 : (x.num.natAbs : ℚ) < (2 : ℚ) ^ (a + 1) := by exact_mod_cast ha2
  have hdq1 : ((2 : ℚ) ^ b) ≤ (x.den : ℚ) := by exact_mod_cast hb1
  have hdq2 : (x.den : ℚ) < (2 : ℚ) ^ (b + 1) := by exact_mod_cast hb2
  have hdpos : (0 : ℚ) < (x.den : ℚ) := by exact_mod_cast hd1
  have h2b : (0 : ℚ) < (2 : ℚ) ^ b := by positivity
  have hk : (2 : ℚ) ^ ((a : Int) - (b : Int)) = (2 : ℚ) ^ a / (2 : ℚ) ^ b := by
    rw [zpow_sub₀ (by norm_num), zpow_natCast, zpow_natCast]
  have hup : x < (2 : ℚ) ^ ((a : Int) - (b : Int) + 1) := by
    rw [zpow_add₀ (by norm_num), hk, zpow_one, hxeq, div_mul_eq_mul_div, div_lt_div_iff₀ hdpos h2b]
    have : (x.num.natAbs : ℚ) * (2 : ℚ) ^ b < (2 : ℚ) ^ (a + 1) * (x.den : ℚ) := by
      calc (x.num.natAbs : ℚ) * (2 : ℚ) ^ b
          ≤ (x.num.natAbs : ℚ) * (x.den : ℚ) := by
            apply mul_le_mul_of_nonneg_left hdq1
            exact_mod_cast Nat.zero_le _
        _ < (2 : ℚ) ^ (a + 1) * (x.den : ℚ) := by
            apply mul_lt_mul_of_pos_right hnq2 hdpos
    rw [pow_succ] at this
    linarith
  have hlow : (2 : ℚ) ^ ((a : Int) - (b : Int) - 1) ≤ x := by
    rw [zpow_sub₀ (by norm_num), hk, zpow_one, hxeq, div_div, div_le_div_iff₀ (by positivity) hdpos]
    calc (2 : ℚ) ^ a * (x.den : ℚ)
        ≤ (x.num.natAbs : ℚ) * (x.den : ℚ) := by
          apply mul_le_mul_of_nonneg_right hnq1 hdpos.le
      _ ≤ (x.num.natAbs : ℚ) * ((2 : ℚ) ^ b * 2) := by
          apply mul_le_mul_of_nonneg_left _ (by exact_mod_cast Nat.zero_le _)
          rw [pow_succ] at hdq2
          exact hdq2.le
  by_cases hc : (2 : ℚ) ^ ((a : Int) - (b : Int)) ≤ x
  · rw [if_pos hc]
    exact ⟨hc, hup⟩
  · rw [if_neg hc]
    refine ⟨hlow, ?_⟩
    rw [sub_add_cancel]
    exact not_le.mp hc

theorem Dbl.expo_ge (x : ℚ) : -1022 ≤ Dbl.expo x := le_max_right _ _

theorem Dbl.lt_pow_expo (x : ℚ) (hx : 0 < x) : x < (2 : ℚ) ^ (Dbl.expo x + 1) := by
  have h := (Dbl.log2_spec x hx).2
  have hle : Dbl.log2 x + 1 ≤ Dbl.expo x + 1 := by
    have : Dbl.log2 x ≤ Dbl.expo x := le_max_left _ _
    omega
  exact lt_of_lt_of_le h (zpow_le_zpow_right₀ (by norm_num) hle)

theorem Dbl.pow_expo_le (x : ℚ) (hx : 0 < x) (he : -1022 < Dbl.expo x) :
    (2 : ℚ) ^ Dbl.expo x ≤ x := by
  have h := (Dbl.log2_spec x hx).1
  have heq : Dbl.expo x = Dbl.log2 x := by
    unfold Dbl.expo at he ⊢
    rcases max_cases (Dbl.log2 x) (-1022) with ⟨h1, _⟩ | ⟨h1, _⟩
    · exact h1
    · rw [h1] at he
      omega
  rw [heq]
  exact h

theorem Dbl.expo_mono (x y : ℚ) (hx : 0 < x) (hxy : x ≤ y) : Dbl.expo x ≤ Dbl.expo y := by
  by_contra hcon
  have hlt : Dbl.expo y < Dbl.expo x := not_le.mp hcon
  have hgt : -1022 < Dbl.expo x := lt_of_le_of_lt (Dbl.expo_ge y) hlt
  have h1 := Dbl.pow_expo_le x hx hgt
  have h2 := Dbl.lt_pow_expo y (lt_of_lt_of_le hx hxy)
  have h3 : (2 : ℚ) ^ (Dbl.expo y + 1) ≤ (2 : ℚ) ^ Dbl.expo x :=
    zpow_le_zpow_right₀ (by norm_num) (by omega)
  linarith

theorem Dbl.ulp_pos (x : ℚ) : 0 < Dbl.ulp x := zpow_pos (by norm_num) _

theorem Dbl.roundHalfEven_intCast (m : Int) : Dbl.roundHalfEven (m : ℚ) = m := by
  simp [Dbl.roundHalfEven]

theorem Dbl.roundHalfEven_mono (x y : ℚ) (h : x ≤ y) :
    Dbl.roundHalfEven x ≤ Dbl.roundHalfEven y := by
  have hf : ⌊x⌋ ≤ ⌊y⌋ := Int.floor_mono h
  have hx0 : (0 : ℚ) ≤ x - ⌊x⌋ := sub_nonneg.mpr (Int.floor_le x)
  have hy0 : (0 : ℚ) ≤ y - ⌊y⌋ := sub_nonneg.mpr (Int.floor_le y)
  rcases lt_or_eq_of_le hf with hlt | heq
  · have h1 : Dbl.roundHalfEven x ≤ ⌊x⌋ + 1 := by
      unfold Dbl.roundHalfEven
      split_ifs <;> omega
    have h2 : ⌊y⌋ ≤ Dbl.roundHalfEven y := by
      unfold Dbl.roundHalfEven
      split_ifs <;> omega
    omega
  · have hr : x - ⌊x⌋ ≤ y - ⌊y⌋ := by
      rw [heq]
      linarith
    unfold Dbl.roundHalfEven
    rw [heq] at hr ⊢
    split_ifs <;> first | omega | (exfalso; linarith)

theorem Dbl.roundHalfEven_nonneg (x : ℚ) (h : 0 ≤ x) : 0 ≤ Dbl.roundHalfEven x := by
  have := Dbl.roundHalfEven_mono 0 x h
  rwa [show ((0 : ℚ)) = ((0 : Int) : ℚ) by norm_num, Dbl.roundHalfEven_intCast] at this

/-- A multiple of the spacing below `x` stays below the rounded value. -/
theorem Dbl.le_roundMag (x : ℚ) (m : Int) (h : (m : ℚ) * Dbl.ulp x ≤ x) :
    (m : ℚ) * Dbl.ulp x ≤ Dbl.roundMag x := by
  have hu := Dbl.ulp_pos x
  have h1 : (m : ℚ) ≤ x / Dbl.ulp x := (le_div_iff₀ hu).mpr h
  have h2 := Dbl.roundHalfEven_mono _ _ h1
  rw [Dbl.roundHalfEven_intCast] at h2
  unfold Dbl.roundMag
  have h3 : (m : ℚ) ≤ (Dbl.roundHalfEven (x / Dbl.ulp x) : ℚ) := by exact_mod_cast h2
  exact mul_le_mul_of_nonneg_right h3 hu.le

/-- A multiple of the spacing above `x` stays above the rounded value. -/
theorem Dbl.roundMag_le (x : ℚ) (m : Int) (h : x ≤ (m : ℚ) * Dbl.ulp x) :
    Dbl.roundMag x ≤ (m : ℚ) * Dbl.ulp x := by
  have hu := Dbl.ulp_pos x
  have h1 : x / Dbl.ulp x ≤ (m : ℚ) := (div_le_iff₀ hu).mpr h
  have h2 := Dbl.roundHalfEven_mono _ _ h1
  rw [Dbl.roundHalfEven_intCast] at h2
  unfold Dbl.roundMag
  have h3 : (Dbl.roundHalfEven (x / Dbl.ulp x) : ℚ) ≤ (m : ℚ) := by exact_mod_cast h2
  exact mul_le_mul_of_nonneg_right h3 hu.le

theorem Dbl.roundMag_nonneg (x : ℚ) (hx : 0 ≤ x) : 0 ≤ Dbl.roundMag x := by
  have h := Dbl.le_roundMag x 0 (by simpa using hx)
  simpa using h

theorem Dbl.pow_mul_ulp (x : ℚ) (k : Nat) :
    (((2 : Int) ^ k : Int) : ℚ) * Dbl.ulp x = (2 : ℚ) ^ (Dbl.expo x - 52 + (k : Int)) := by
  unfold Dbl.ulp
  rw [zpow_add₀ (by norm_num), zpow_natCast]
  push_cast
  ring

theorem Dbl.roundMag_mono (x y : ℚ) (hx : 0 < x) (hxy : x ≤ y) :
    Dbl.roundMag x ≤ Dbl.roundMag y := by
  have hy : 0 < y := lt_of_lt_of_le hx hxy
  rcases lt_or_eq_of_le (Dbl.expo_mono x y hx hxy) with hlt | heq
  · have hup : x ≤ (((2 : Int) ^ 53 : Int) : ℚ) * Dbl.ulp x := by
      rw [Dbl.pow_mul_ulp]
      have h := Dbl.lt_pow_expo x hx
      have he : Dbl.expo x - 52 + ((53 : Nat) : Int) = Dbl.expo x + 1 := by push_cast; ring
      rw [he]
      exact h.le
    have hlow : (((2 : Int) ^ 52 : Int) : ℚ) * Dbl.ulp y ≤ y := by
      rw [Dbl.pow_mul_ulp]
      have h := Dbl.pow_expo_le y hy (lt_of_le_of_lt (Dbl.expo_ge x) hlt)
      have he : Dbl.expo y - 52 + ((52 : Nat) : Int) = Dbl.expo y := by push_cast; ring
      rw [he]
      exact h
    have h1 := Dbl.roundMag_le x _ hup
    have h2 := Dbl.le_roundMag y _ hlow
    rw [Dbl.pow_mul_ulp] at h1 h2
    have h3 : (2 : ℚ) ^ (Dbl.expo x - 52 + ((53 : Nat) : Int)) ≤
        (2 : ℚ) ^ (Dbl.expo y - 52 + ((52 : Nat) : Int)) := by
      apply zpow_le_zpow_right₀ (by norm_num)
      push_cast
      omega
    linarith
  · have hu : Dbl.ulp x = Dbl.ulp y := by unfold Dbl.ulp; rw [heq]
    have hupos := Dbl.ulp_pos y
    unfold Dbl.roundMag
    rw [hu]
    have h1 : x / Dbl.ulp y ≤ y / Dbl.ulp y := div_le_div_of_nonneg_right hxy hupos.le
    have h2 := Dbl.roundHalfEven_mono _ _ h1
    have h3 : (Dbl.roundHalfEven (x / Dbl.ulp y) : ℚ) ≤ (Dbl.roundHalfEven (y / Dbl.ulp y) : ℚ) := by
      exact_mod_cast h2
    exact mul_le_mul_of_nonneg_right h3 hupos.le


theorem Dbl.roundMag_of_multiple (x : ℚ) (m : Int) (h : x = (m : ℚ) * Dbl.ulp x) :
    Dbl.roundMag x = x := by
  have hu := Dbl.ulp_pos x
  have hq : x / Dbl.ulp x = (m : ℚ) := by
    rw [div_eq_iff hu.ne']
    exact h
  unfold Dbl.roundMag
  rw [hq, Dbl.roundHalfEven_intCast]
  exact h.symm

/-- Integers below `2 ^ 53` are binary64 values: rounding leaves them as they
are. -/
theorem Dbl.round_intCast (n : Int) (h0 : 0 ≤ n) (h53 : n < 2 ^ 53) :
    Dbl.round (n : ℚ) = Dbl.fin (n : ℚ) := by
  rcases eq_or_lt_of_le h0 with h | hpos
  · subst h
    simp [Dbl.round]
  · have hx : (0 : ℚ) < (n : ℚ) := by exact_mod_cast hpos
    have hlt : (n : ℚ) < (2 : ℚ) ^ (53 : Int) := by
      have h1 : (n : ℚ) < 9007199254740992 := by
        exact_mod_cast (show n < 9007199254740992 by omega)
      have h2 : (2 : ℚ) ^ (53 : Int) = 9007199254740992 := by norm_num
      rw [h2]
      exact h1
    have hE : Dbl.expo (n : ℚ) ≤ 52 := by
      by_contra hcon
      have h1 := Dbl.pow_expo_le (n : ℚ) hx (by omega)
      have h2 : (2 : ℚ) ^ (53 : Int) ≤ (2 : ℚ) ^ Dbl.expo (n : ℚ) :=
        zpow_le_zpow_right₀ (by norm_num) (by omega)
      linarith
    obtain ⟨k, hk⟩ : ∃ k : Nat, (k : Int) = 52 - Dbl.expo (n : ℚ) :=
      ⟨(52 - Dbl.expo (n : ℚ)).toNat, Int.toNat_of_nonneg (by omega)⟩
    have hulp : Dbl.ulp (n : ℚ) * (2 : ℚ) ^ k = 1 := by
      unfold Dbl.ulp
      rw [← zpow_natCast, ← zpow_add₀ (by norm_num), hk]
      have : Dbl.expo (n : ℚ) - 52 + (52 - Dbl.expo (n : ℚ)) = 0 := by ring
      rw [this, zpow_zero]
    have hmag : Dbl.roundMag (n : ℚ) = (n : ℚ) := by
      apply Dbl.roundMag_of_multiple (n : ℚ) (n * 2 ^ k)
      push_cast
      rw [mul_assoc, mul_comm ((2 : ℚ) ^ k), hulp, mul_one]
    have hnot : ¬ (2 : ℚ) ^ (1024 : Nat) ≤ (n : ℚ) := by
      have h3 : (2 : ℚ) ^ (53 : Int) ≤ (2 : ℚ) ^ (1024 : Nat) := by
        rw [← zpow_natCast]
        exact zpow_le_zpow_right₀ (by norm_num) (by norm_num)
      linarith
    simp only [Dbl.round, hx.ne', if_false, hx, if_true, Dbl.roundPos, hmag, hnot]

theorem Dbl.isNonneg_iff (x : Dbl) :
    x.isNonneg = true ↔ x = Dbl.inf false ∨ ∃ q : ℚ, 0 ≤ q ∧ x = Dbl.fin q := by
  cases x with
  | nan => simp [Dbl.isNonneg, Dbl.le]
  | inf s => cases s <;> simp [Dbl.isNonneg, Dbl.le]
  | fin q => simp [Dbl.isNonneg, Dbl.le]

theorem Dbl.roundPos_isNonneg (x : ℚ) (hx : 0 ≤ x) : (Dbl.roundPos x).isNonneg = true := by
  unfold Dbl.roundPos
  split
  · simp [Dbl.isNonneg, Dbl.le]
  · simpa [Dbl.isNonneg, Dbl.le] using Dbl.roundMag_nonneg x hx

theorem Dbl.round_isNonneg (x : ℚ) (hx : 0 ≤ x) : (Dbl.round x).isNonneg = true := by
  unfold Dbl.round
  split
  · simp [Dbl.isNonneg, Dbl.le]
  · split
    · exact Dbl.roundPos_isNonneg x hx
    · exfalso
      rcases eq_or_lt_of_le hx with h | h
      · exact absurd h.symm (by assumption)
      · exact absurd h (by assumption)

theorem Dbl.roundPos_mono (x y : ℚ) (hx : 0 < x) (hxy : x ≤ y) :
    Dbl.le (Dbl.roundPos x) (Dbl.roundPos y) = true := by
  have h := Dbl.roundMag_mono x y hx hxy
  unfold Dbl.roundPos
  by_cases hy : (2 : ℚ) ^ (1024 : Nat) ≤ Dbl.roundMag y
  · rw [if_pos hy]
    split <;> simp [Dbl.le]
  · rw [if_neg hy]
    have hxn : ¬ (2 : ℚ) ^ (1024 : Nat) ≤ Dbl.roundMag x := fun hc => hy (le_trans hc h)
    rw [if_neg hxn]
    simpa [Dbl.le] using h

/-- Rounding is monotone on the non-negative rationals. -/
theorem Dbl.round_mono (x y : ℚ) (hx : 0 ≤ x) (hxy : x ≤ y) :
    Dbl.le (Dbl.round x) (Dbl.round y) = true := by
  rcases eq_or_lt_of_le hx with h0 | hpos
  · subst h0
    have hy := Dbl.round_isNonneg y hxy
    simpa [Dbl.round, Dbl.isNonneg] using hy
  · have hy : 0 < y := lt_of_lt_of_le hpos hxy
    simpa [Dbl.round, hpos.ne', hpos, hy.ne', hy] using Dbl.roundPos_mono x y hpos hxy

theorem Dbl.le_of_gt_false (x y : Dbl) (hx : x ≠ Dbl.nan) (hy : y ≠ Dbl.nan) :
    Dbl.gt x y = false ↔ Dbl.le x y = true := by
  cases x with
  | nan => exact absurd rfl hx
  | inf s =>
    cases y with
    | nan => exact absurd rfl hy
    | inf t => cases s <;> cases t <;> simp [Dbl.gt, Dbl.lt, Dbl.le]
    | fin b => cases s <;> simp [Dbl.gt, Dbl.lt, Dbl.le]
  | fin a =>
    cases y with
    | nan => exact absurd rfl hy
    | inf t => cases t <;> simp [Dbl.gt, Dbl.lt, Dbl.le]
    | fin b => simp [Dbl.gt, Dbl.lt, Dbl.le]

theorem Dbl.le_false_of_gt (x y : Dbl) (h : Dbl.gt x y = true) : Dbl.le x y = false := by
  cases x with
  | nan => simp [Dbl.le]
  | inf s =>
    cases y with
    | nan => simp [Dbl.le]
    | inf t => cases s <;> cases t <;> simp_all [Dbl.gt, Dbl.lt, Dbl.le]
    | fin b => cases s <;> simp_all [Dbl.gt, Dbl.lt, Dbl.le]
  | fin a =>
    cases y with
    | nan => simp [Dbl.le]
    | inf t => cases t <;> simp_all [Dbl.gt, Dbl.lt, Dbl.le]
    | fin b =>
      simp only [Dbl.gt, Dbl.lt, decide_eq_true_eq] at h
      simp [Dbl.le, h]

theorem Dbl.mul_isNonneg (x : Dbl) (q : ℚ) (hx : x.isNonneg = true) (hq : 0 < q) :
    (Dbl.mul x (Dbl.fin q)).isNonneg = true := by
  rcases (Dbl.isNonneg_iff x).mp hx with rfl | ⟨a, ha, rfl⟩
  · simp [Dbl.mul, hq.ne', not_lt.mpr hq.le, Dbl.isNonneg, Dbl.le]
  · exact Dbl.round_isNonneg _ (mul_nonneg ha hq.le)

theorem Dbl.div_isNonneg (x : Dbl) (q : ℚ) (hx : x.isNonneg = true) (hq : 0 < q) :
    (Dbl.div x (Dbl.fin q)).isNonneg = true := by
  rcases (Dbl.isNonneg_iff x).mp hx with rfl | ⟨a, ha, rfl⟩
  · simp [Dbl.div, not_lt.mpr hq.le, Dbl.isNonneg, Dbl.le]
  · simp only [Dbl.div, hq.ne', if_false]
    exact Dbl.round_isNonneg _ (div_nonneg ha hq.le)

theorem Dbl.ceil_isNonneg (x : Dbl) (hx : x.isNonneg = true) : (Dbl.ceil x).isNonneg = true := by
  rcases (Dbl.isNonneg_iff x).mp hx with rfl | ⟨a, ha, rfl⟩
  · simp [Dbl.ceil, Dbl.isNonneg, Dbl.le]
  · have h : (0 : ℚ) ≤ ((⌈a⌉ : Int) : ℚ) := by exact_mod_cast Int.ceil_nonneg ha
    simpa [Dbl.ceil, Dbl.isNonneg, Dbl.le] using h

theorem wrapInt_of_inIntRange (x : Int) (h : inIntRange x) : wrapInt x = x := by
  unfold wrapInt
  unfold inIntRange at h
  omega

theorem wrapInt_sub (x y : Int) : wrapInt (wrapInt x - y) = wrapInt (x - y) := by
  unfold wrapInt
  omega

theorem wrapInt_inIntRange (x : Int) : inIntRange (wrapInt x) := by
  unfold wrapInt inIntRange
  omega

theorem checkoutLoop_ok (clock : Clock) (heap : Heap) (items : List CartItem) (acc : Acc)
    (h : hasExpired clock heap items = false) :
    checkoutLoop clock heap items acc =
      .ok { subtotal := Dbl.sumFrom acc.subtotal (linePrices heap items)
            totalWeight := Dbl.sumFrom acc.totalWeight (lineWeights heap (shippablesOf heap items))
            shippables := acc.shippables ++ shippablesOf heap items } := by
  induction items generalizing acc with
  | nil => simp [checkoutLoop, Dbl.sumFrom, linePrices, lineWeights, shippablesOf]
  | cons item rest ih =>
    simp only [hasExpired, List.any_cons, Bool.or_eq_false_iff] at h
    have hrest : hasExpired clock heap rest = false := h.2
    by_cases hs : (heap item.product).isShippable = true
    · simp [checkoutLoop, h.1, hs, ih _ hrest, Dbl.sumFrom, linePrices, lineWeights,
        shippablesOf, List.filter_cons]
    · simp [checkoutLoop, h.1, hs, ih _ hrest, Dbl.sumFrom, linePrices, lineWeights,
        shippablesOf, List.filter_cons]

theorem checkoutLoop_error (clock : Clock) (heap : Heap) (pre post : List CartItem)
    (item : CartItem) (acc : Acc)
    (hpre : hasExpired clock heap pre = false)
    (hitem : (heap item.product).isExpired clock = true) :
    checkoutLoop clock heap (pre ++ item :: post) acc = .error (heap item.product).getName := by
  induction pre generalizing acc with
  | nil => simp [checkoutLoop, hitem]
  | cons x rest ih =>
    simp only [hasExpired, List.any_cons, Bool.or_eq_false_iff] at hpre
    have hrest : hasExpired clock heap rest = false := hpre.2
    by_cases hs : (heap x.product).isShippable = true
    · simp [checkoutLoop, hpre.1, hs, ih _ hrest]
    · simp [checkoutLoop, hpre.1, hs, ih _ hrest]

/-- An expired item splits the cart at the first expired one. -/
theorem hasExpired_split (clock : Clock) (heap : Heap) (items : List CartItem)
    (h : hasExpired clock heap items = true) :
    ∃ pre item post, items = pre ++ item :: post ∧ hasExpired clock heap pre = false ∧
      (heap item.product).isExpired clock = true := by
  induction items with
  | nil => simp [hasExpired] at h
  | cons x rest ih =>
    by_cases hx : (heap x.product).isExpired clock = true
    · exact ⟨[], x, rest, rfl, by simp [hasExpired], hx⟩
    · have hrest : hasExpired clock heap rest = true := by
        simpa [hasExpired, hx] using h
      obtain ⟨pre, item, post, he, hp, hi⟩ := ih hrest
      refine ⟨x :: pre, item, post, by simp [he], ?_, hi⟩
      simpa [hasExpired, hx] using hp

theorem pricing_ok (clock : Clock) (heap : Heap) (items : List CartItem)
    (h : hasExpired clock heap items = false) :
    pricing clock heap items =
      .ok { subtotal := subtotalOf heap items
            shipping := shippingFee (totalWeightOf heap items)
            totalWeight := totalWeightOf heap items
            shippables := shippablesOf heap items
            total := totalOf heap items } := by
  simp [pricing, checkoutLoop_ok clock heap items _ h, totalOf, subtotalOf, totalWeightOf]

theorem pricing_error (clock : Clock) (heap : Heap) (pre post : List CartItem)
    (item : CartItem)
    (hpre : hasExpired clock heap pre = false)
    (hitem : (heap item.product).isExpired clock = true) :
    pricing clock heap (pre ++ item :: post) = .error (heap item.product).getName := by
  simp [pricing, checkoutLoop_error clock heap pre post item _ hpre hitem]

/-! ## The four ways through `checkout` -/

theorem checkout_empty (clock : Clock) (heap : Heap) (customer : Customer) (cart : Cart)
    (h : cart.items = []) :
    checkout clock heap customer cart =
      { heap := heap, customer := customer, cart := cart, out := [Msg.cartEmpty] } := by
  simp [checkout, Cart.isEmpty, h]

theorem checkout_expired (clock : Clock) (heap : Heap) (customer : Customer) (cart : Cart)
    (pre post : List CartItem) (item : CartItem)
    (hsplit : cart.items = pre ++ item :: post)
    (hpre : hasExpired clock heap pre = false)
    (hitem : (heap item.product).isExpired clock = true) :
    checkout clock heap customer cart =
      { heap := heap, customer := customer, cart := cart
        out := [Msg.itemExpired (heap item.product).getName] } := by
  simp [checkout, Cart.isEmpty, Cart.getItems, hsplit,
    pricing_error clock heap pre post item hpre hitem]

theorem checkout_insufficient (clock : Clock) (heap : Heap) (customer : Customer) (cart : Cart)
    (hne : cart.items ≠ [])
    (hexp : hasExpired clock heap cart.items = false)
    (hbal : Dbl.gt (totalOf heap cart.items) customer.balance = true) :
    checkout clock heap customer cart =
      { heap := heap, customer := customer, cart := cart, out := [Msg.insufficientBalance] } := by
  simp [checkout, Cart.isEmpty, Cart.getItems, hne, pricing_ok clock heap cart.items hexp,
    Customer.pay, hbal]

theorem checkout_paid (clock : Clock) (heap : Heap) (customer : Customer) (cart : Cart)
    (hne : cart.items ≠ [])
    (hexp : hasExpired clock heap cart.items = false)
    (hbal : Dbl.gt (totalOf heap cart.items) customer.balance = false) :
    checkout clock heap customer cart =
      { heap := reduceStock heap cart.items
        customer :=
          { customer with balance := Dbl.sub customer.balance (totalOf heap cart.items) }
        cart := cart
        out :=
          (if !(shippablesOf heap cart.items).isEmpty then
            ShippingService (reduceStock heap cart.items) (shippablesOf heap cart.items)
           else []) ++
          [Msg.receipt (receiptLines (reduceStock heap cart.items) cart.items)
            (subtotalOf heap cart.items) (shippingFee (totalWeightOf heap cart.items))
            (totalOf heap cart.items)
            (Dbl.sub customer.balance (totalOf heap cart.items))] } := by
  simp [checkout, Cart.isEmpty, Cart.getItems, hne, pricing_ok clock heap cart.items hexp,
    Customer.pay, hbal, Customer.getBalance]

/-- The notice part of the output holds neither a rejection nor a receipt. -/
theorem ShippingService_plain (heap : Heap) (items : List CartItem) :
    (ShippingService heap items).any Msg.isRejection = false ∧
      (ShippingService heap items).any Msg.isReceipt = false := by
  simp [ShippingService, Msg.isRejection, Msg.isReceipt]

theorem reduceStock_at (heap : Heap) (items : List CartItem) (a : Nat) :
    reduceStock heap items a =
      if items.any (fun it => decide (it.product = a)) = true then
        { heap a with quantity := wrapInt ((heap a).quantity - requestedOf items a) }
      else heap a := by
  induction items generalizing heap with
  | nil => simp [reduceStock]
  | cons item rest ih =>
    rw [reduceStock, ih]
    by_cases ha : item.product = a
    · subst ha
      by_cases hr : rest.any (fun it => decide (it.product = item.product)) = true
      · simp [Heap.set, Product.reduceQuantity, requestedOf, List.filter_cons, hr, wrapInt_sub,
          sub_sub]
      · have hnil : (rest.filter fun it => decide (it.product = item.product)) = [] := by
          rw [List.filter_eq_nil_iff]
          intro it hit hc
          exact hr (List.any_eq_true.mpr ⟨it, hit, hc⟩)
        simp [Heap.set, Product.reduceQuantity, requestedOf, List.filter_cons, hr, hnil]
    · have ha2 : ¬ a = item.product := fun h => ha h.symm
      simp [Heap.set, requestedOf, List.filter_cons, ha, ha2]

theorem reduceStock_frame (heap : Heap) (items : List CartItem) (a : Nat) :
    (reduceStock heap items a).name = (heap a).name ∧
      (reduceStock heap items a).price = (heap a).price ∧
      (reduceStock heap items a).variant = (heap a).variant := by
  rw [reduceStock_at]
  split <;> exact ⟨rfl, rfl, rfl⟩

theorem hasExpired_eq_false_iff (clock : Clock) (heap : Heap) (items : List CartItem) :
    hasExpired clock heap items = false ↔
      ∀ it ∈ items, (heap it.product).isExpired clock = false := by
  simp [hasExpired]

theorem hasExpired_eq_true_iff (clock : Clock) (heap : Heap) (items : List CartItem) :
    hasExpired clock heap items = true ↔
      ∃ it ∈ items, (heap it.product).isExpired clock = true := by
  simp [hasExpired]

theorem succeeded_iff (clock : Clock) (heap : Heap) (customer : Customer) (cart : Cart) :
    (checkout clock heap customer cart).succeeded = true ↔
      cart.items ≠ [] ∧ hasExpired clock heap cart.items = false ∧
        Dbl.gt (totalOf heap cart.items) customer.balance = false := by
  by_cases hne : cart.items = []
  · simp [checkout_empty clock heap customer cart hne, Result.succeeded, Msg.isReceipt, hne]
  · cases hexp : hasExpired clock heap cart.items
    · cases hbal : Dbl.gt (totalOf heap cart.items) customer.balance
      · simp [checkout_paid clock heap customer cart hne hexp hbal,
          Result.succeeded, Msg.isReceipt, hne]
      · simp [checkout_insufficient clock heap customer cart hne hexp hbal, Result.succeeded,
          Msg.isReceipt]
    · obtain ⟨pre, item, post, hs, hp, hi⟩ := hasExpired_split clock heap cart.items hexp
      simp [checkout_expired clock heap customer cart pre post item hs hp hi, Result.succeeded,
        Msg.isReceipt]

theorem rejected_iff (clock : Clock) (heap : Heap) (customer : Customer) (cart : Cart) :
    (checkout clock heap customer cart).rejected = true ↔
      cart.items = [] ∨ hasExpired clock heap cart.items = true ∨
        Dbl.gt (totalOf heap cart.items) customer.balance = true := by
  by_cases hne : cart.items = []
  · simp [checkout_empty clock heap customer cart hne, Result.rejected, Msg.isRejection, hne]
  · cases hexp : hasExpired clock heap cart.items
    · cases hbal : Dbl.gt (totalOf heap cart.items) customer.balance
      · have hplain := (ShippingService_plain (reduceStock heap cart.items)
          (shippablesOf heap cart.items)).1
        rw [checkout_paid clock heap customer cart hne hexp hbal]
        by_cases hsh : (shippablesOf heap cart.items).isEmpty = true
        · simp [Result.rejected, Msg.isRejection, hne, hsh]
        · simp only [Bool.not_eq_true] at hsh
          simp only [Result.rejected, hsh, Bool.not_false, if_true, List.any_append, hplain]
          simp [Msg.isRejection, hne]
      · simp [checkout_insufficient clock heap customer cart hne hexp hbal, Result.rejected,
          Msg.isRejection]
    · obtain ⟨pre, item, post, hs, hp, hi⟩ := hasExpired_split clock heap cart.items hexp
      simp [checkout_expired clock heap customer cart pre post item hs hp hi, Result.rejected,
        Msg.isRejection]

theorem rejected_unchanged (clock : Clock) (heap : Heap) (customer : Customer) (cart : Cart)
    (h : cart.items = [] ∨ hasExpired clock heap cart.items = true ∨
      Dbl.gt (totalOf heap cart.items) customer.balance = true) :
    (checkout clock heap customer cart).customer = customer ∧
      (checkout clock heap customer cart).heap = heap := by
  by_cases hne : cart.items = []
  · simp [checkout_empty clock heap customer cart hne]
  · cases hexp : hasExpired clock heap cart.items
    · have hbal : Dbl.gt (totalOf heap cart.items) customer.balance = true := by
        rcases h with h | h | h
        · exact absurd h hne
        · rw [hexp] at h; cases h
        · exact h
      simp [checkout_insufficient clock heap customer cart hne hexp hbal]
    · obtain ⟨pre, item, post, hs, hp, hi⟩ := hasExpired_split clock heap cart.items hexp
      simp [checkout_expired clock heap customer cart pre post item hs hp hi]

theorem out_ne_of_succeeded (r : Result) (m : Msg) (hs : r.succeeded = true)
    (hm : m.isReceipt = false) : r.out ≠ [m] := by
  intro heq
  rw [Result.succeeded, heq] at hs
  simp [hm] at hs


/-! ## Lemmas on the shipping fee -/

theorem Dbl.le_inf_of_isNonneg (x : Dbl) (h : x.isNonneg = true) :
    Dbl.le x (Dbl.inf false) = true := by
  rcases (Dbl.isNonneg_iff x).mp h with rfl | ⟨a, _, rfl⟩ <;> simp [Dbl.le]

theorem Dbl.isNonneg_of_gt_zero (x : Dbl) (h : Dbl.gt x (Dbl.fin 0) = true) :
    x.isNonneg = true := by
  cases x with
  | nan => simp [Dbl.gt, Dbl.lt] at h
  | inf s => cases s <;> simp_all [Dbl.gt, Dbl.lt, Dbl.isNonneg, Dbl.le]
  | fin a =>
    simp only [Dbl.gt, Dbl.lt, decide_eq_true_eq] at h
    simp [Dbl.isNonneg, Dbl.le, h.le]

theorem Dbl.gt_zero_of_le (x y : Dbl) (hx : Dbl.gt x (Dbl.fin 0) = true)
    (hxy : Dbl.le x y = true) : Dbl.gt y (Dbl.fin 0) = true := by
  cases x with
  | nan => simp [Dbl.gt, Dbl.lt] at hx
  | inf s =>
    cases y with
    | nan => simp [Dbl.le] at hxy
    | inf t => cases s <;> cases t <;> simp_all [Dbl.gt, Dbl.lt, Dbl.le]
    | fin b => cases s <;> simp_all [Dbl.gt, Dbl.lt, Dbl.le]
  | fin a =>
    cases y with
    | nan => simp [Dbl.le] at hxy
    | inf t => cases t <;> simp_all [Dbl.gt, Dbl.lt, Dbl.le]
    | fin b =>
      simp only [Dbl.gt, Dbl.lt, Dbl.le, decide_eq_true_eq] at hx hxy ⊢
      linarith

theorem Dbl.ceil_mono (x y : Dbl) (h : Dbl.le x y = true) :
    Dbl.le (Dbl.ceil x) (Dbl.ceil y) = true := by
  cases x with
  | nan => simp [Dbl.le] at h
  | inf s =>
    cases y with
    | nan => simp [Dbl.le] at h
    | inf t => simpa [Dbl.ceil] using h
    | fin b => simpa [Dbl.ceil, Dbl.le] using h
  | fin a =>
    cases y with
    | nan => simp [Dbl.le] at h
    | inf t => simpa [Dbl.ceil, Dbl.le] using h
    | fin b =>
      simp only [Dbl.le, decide_eq_true_eq] at h
      have hc : ((⌈a⌉ : Int) : ℚ) ≤ ((⌈b⌉ : Int) : ℚ) := by exact_mod_cast Int.ceil_mono h
      simpa [Dbl.ceil, Dbl.le] using hc

theorem Dbl.mul_mono_pos (x y : Dbl) (q : ℚ) (hq : 0 < q) (hx : x.isNonneg = true)
    (h : Dbl.le x y = true) :
    Dbl.le (Dbl.mul x (Dbl.fin q)) (Dbl.mul y (Dbl.fin q)) = true := by
  rcases (Dbl.isNonneg_iff x).mp hx with rfl | ⟨a, ha, rfl⟩
  · cases y with
    | nan => simp [Dbl.le] at h
    | inf t => cases t <;> simp_all [Dbl.mul, Dbl.le, hq.ne', not_lt.mpr hq.le]
    | fin b => simp [Dbl.le] at h
  · cases y with
    | nan => simp [Dbl.le] at h
    | inf t =>
      cases t with
      | true => simp [Dbl.le] at h
      | false =>
        have hr := Dbl.le_inf_of_isNonneg _ (Dbl.round_isNonneg (a * q) (mul_nonneg ha hq.le))
        simpa [Dbl.mul, hq.ne', not_lt.mpr hq.le] using hr
    | fin b =>
      simp only [Dbl.le, decide_eq_true_eq] at h
      exact Dbl.round_mono _ _ (mul_nonneg ha hq.le) (mul_le_mul_of_nonneg_right h hq.le)

theorem Dbl.div_mono_pos (x y : Dbl) (q : ℚ) (hq : 0 < q) (hx : x.isNonneg = true)
    (h : Dbl.le x y = true) :
    Dbl.le (Dbl.div x (Dbl.fin q)) (Dbl.div y (Dbl.fin q)) = true := by
  rcases (Dbl.isNonneg_iff x).mp hx with rfl | ⟨a, ha, rfl⟩
  · cases y with
    | nan => simp [Dbl.le] at h
    | inf t => cases t <;> simp_all [Dbl.div, Dbl.le, not_lt.mpr hq.le]
    | fin b => simp [Dbl.le] at h
  · cases y with
    | nan => simp [Dbl.le] at h
    | inf t =>
      cases t with
      | true => simp [Dbl.le] at h
      | false =>
        have hr := Dbl.le_inf_of_isNonneg _ (Dbl.round_isNonneg (a / q) (div_nonneg ha hq.le))
        simpa [Dbl.div, hq.ne', not_lt.mpr hq.le] using hr
    | fin b =>
      simp only [Dbl.le, decide_eq_true_eq] at h
      simp only [Dbl.div, hq.ne', if_false]
      exact Dbl.round_mono _ _ (div_nonneg ha hq.le) (div_le_div_of_nonneg_right h hq.le)

theorem shippingFee_of_gt (w : Dbl) (h : Dbl.gt w (Dbl.fin 0) = true) :
    shippingFee w = Dbl.mul (Dbl.ceil (Dbl.div w (Dbl.fin 1000))) (Dbl.fin 10) := by
  simp [shippingFee, h]

theorem shippingFee_of_not_gt (w : Dbl) (h : Dbl.gt w (Dbl.fin 0) = false) :
    shippingFee w = Dbl.fin 0 := by
  simp [shippingFee, h]

theorem shippingFee_isNonneg (w : Dbl) : (shippingFee w).isNonneg = true := by
  cases h : Dbl.gt w (Dbl.fin 0)
  · rw [shippingFee_of_not_gt w h]
    decide
  · rw [shippingFee_of_gt w h]
    exact Dbl.mul_isNonneg _ _
      (Dbl.ceil_isNonneg _ (Dbl.div_isNonneg _ _ (Dbl.isNonneg_of_gt_zero w h) (by norm_num)))
      (by norm_num)

theorem shippingFee_mono (w1 w2 : Dbl) (h : Dbl.le w1 w2 = true) :
    Dbl.le (shippingFee w1) (shippingFee w2) = true := by
  cases h1 : Dbl.gt w1 (Dbl.fin 0)
  · rw [shippingFee_of_not_gt w1 h1]
    exact shippingFee_isNonneg w2
  · have h2 := Dbl.gt_zero_of_le w1 w2 h1 h
    have hn1 := Dbl.isNonneg_of_gt_zero w1 h1
    rw [shippingFee_of_gt w1 h1, shippingFee_of_gt w2 h2]
    apply Dbl.mul_mono_pos _ _ _ (by norm_num)
    · exact Dbl.ceil_isNonneg _ (Dbl.div_isNonneg _ _ hn1 (by norm_num))
    · exact Dbl.ceil_mono _ _ (Dbl.div_mono_pos _ _ _ (by norm_num) hn1 h)

theorem shippingFee_exact (w : Dbl) (d : ℚ) (hw : Dbl.gt w (Dbl.fin 0) = true)
    (hd : Dbl.div w (Dbl.fin 1000) = Dbl.fin d) (hpos : 0 < d)
    (hsmall : 10 * ⌈d⌉ < 2 ^ 53) :
    shippingFee w = Dbl.fin ((10 * ⌈d⌉ : Int) : ℚ) := by
  have hc : 0 < ⌈d⌉ := Int.ceil_pos.mpr hpos
  rw [shippingFee_of_gt w hw, hd]
  simp only [Dbl.ceil, Dbl.mul]
  have he : ((⌈d⌉ : Int) : ℚ) * 10 = ((10 * ⌈d⌉ : Int) : ℚ) := by push_cast; ring
  rw [he]
  exact Dbl.round_intCast _ (by omega) hsmall


/-! ## The shipping fee on weights up to `2 ^ 53` -/

theorem Dbl.sub_roundHalfEven_le (y : ℚ) : y - (Dbl.roundHalfEven y : ℚ) ≤ 1 / 2 := by
  have h0 : (0 : ℚ) ≤ y - ⌊y⌋ := sub_nonneg.mpr (Int.floor_le y)
  have h1 : y < ⌊y⌋ + 1 := Int.lt_floor_add_one y
  unfold Dbl.roundHalfEven
  split_ifs <;> push_cast <;> linarith

theorem Dbl.sub_roundMag_le (x : ℚ) : x - Dbl.roundMag x ≤ Dbl.ulp x / 2 := by
  have hu := Dbl.ulp_pos x
  have h := Dbl.sub_roundHalfEven_le (x / Dbl.ulp x)
  unfold Dbl.roundMag
  have h2 : (x / Dbl.ulp x - (Dbl.roundHalfEven (x / Dbl.ulp x) : ℚ)) * Dbl.ulp x ≤
      1 / 2 * Dbl.ulp x := mul_le_mul_of_nonneg_right h hu.le
  have h3 : x / Dbl.ulp x * Dbl.ulp x = x := div_mul_cancel₀ x hu.ne'
  nlinarith

theorem Dbl.le_expo (x : ℚ) (n : Int) (hx : 0 < x) (h : (2 : ℚ) ^ n ≤ x) : n ≤ Dbl.expo x := by
  have h2 := Dbl.lt_pow_expo x hx
  have h3 : (2 : ℚ) ^ n < (2 : ℚ) ^ (Dbl.expo x + 1) := lt_of_le_of_lt h h2
  have := (zpow_lt_zpow_iff_right₀ (by norm_num : (1 : ℚ) < 2)).mp h3
  omega

theorem Dbl.expo_lt (x : ℚ) (n : Int) (hx : 0 < x) (hn : -1022 < n) (h : x < (2 : ℚ) ^ n) :
    Dbl.expo x < n := by
  by_contra hcon
  have hge : n ≤ Dbl.expo x := not_lt.mp hcon
  have h1 := Dbl.pow_expo_le x hx (by omega)
  have h2 : (2 : ℚ) ^ n ≤ (2 : ℚ) ^ Dbl.expo x := zpow_le_zpow_right₀ (by norm_num) hge
  linarith

theorem Dbl.roundMag_of_round (x v : ℚ) (hx : 0 < x) (h : Dbl.round x = Dbl.fin v) :
    Dbl.roundMag x = v := by
  unfold Dbl.round at h
  rw [if_neg hx.ne', if_pos hx] at h
  unfold Dbl.roundPos at h
  split at h
  · cases h
  · injection h

/-- A positive `double` below `2 ^ 53` that exceeds an integer exceeds it by at
least its own spacing. -/
theorem Dbl.ulp_le_sub_intCast (a : ℚ) (n : Int) (ha : 0 < a) (hdbl : Dbl.round a = Dbl.fin a)
    (h53 : a < (2 : ℚ) ^ (53 : Int)) (hn : (n : ℚ) < a) : Dbl.ulp a ≤ a - n := by
  have hu := Dbl.ulp_pos a
  have hE : Dbl.expo a < 53 := Dbl.expo_lt a 53 ha (by norm_num) h53
  have hmag := Dbl.roundMag_of_round a a ha hdbl
  obtain ⟨k, hk⟩ : ∃ k : Nat, (52 - Dbl.expo a) = (k : Int) :=
    ⟨(52 - Dbl.expo a).toNat, (Int.toNat_of_nonneg (by omega)).symm⟩
  have hinv : (2 : ℚ) ^ k * Dbl.ulp a = 1 := by
    unfold Dbl.ulp
    rw [← zpow_natCast, ← zpow_add₀ (by norm_num : (2 : ℚ) ≠ 0), ← hk]
    have : 52 - Dbl.expo a + (Dbl.expo a - 52) = 0 := by ring
    rw [this, zpow_zero]
  have hn2 : (n : ℚ) = ((n * 2 ^ k : Int) : ℚ) * Dbl.ulp a := by
    push_cast
    rw [mul_assoc, hinv, mul_one]
  have ha2 : a = ((Dbl.roundHalfEven (a / Dbl.ulp a) : Int) : ℚ) * Dbl.ulp a := by
    have := hmag
    unfold Dbl.roundMag at this
    exact this.symm
  have hdiff : a - n =
      ((Dbl.roundHalfEven (a / Dbl.ulp a) - n * 2 ^ k : Int) : ℚ) * Dbl.ulp a := by
    rw [Int.cast_sub, sub_mul, ← hn2, ← ha2]
  have hpos : (0 : ℚ) < ((Dbl.roundHalfEven (a / Dbl.ulp a) - n * 2 ^ k : Int) : ℚ) := by
    have h1 : 0 < a - n := sub_pos.mpr hn
    rw [hdiff] at h1
    exact (mul_pos_iff_of_pos_right hu).mp h1
  have hge1 : (1 : ℚ) ≤ ((Dbl.roundHalfEven (a / Dbl.ulp a) - n * 2 ^ k : Int) : ℚ) := by
    have : 0 < (Dbl.roundHalfEven (a / Dbl.ulp a) - n * 2 ^ k : Int) := by exact_mod_cast hpos
    exact_mod_cast this
  rw [hdiff]
  nlinarith

/-- Dividing a weight above 1000 by 1000 shrinks the spacing 512 times or more. -/
theorem Dbl.ulp_div_thousand (a : ℚ) (ha : 1000 < a) :
    512 * Dbl.ulp (a / 1000) ≤ Dbl.ulp a := by
  have hpos : (0 : ℚ) < a := by linarith
  have hx : (0 : ℚ) < a / 1000 := div_pos hpos (by norm_num)
  have hE9 : 9 ≤ Dbl.expo a := Dbl.le_expo a 9 hpos (by norm_num; linarith)
  have hlt : a / 1000 < (2 : ℚ) ^ (Dbl.expo a - 8) := by
    have h1 := Dbl.lt_pow_expo a hpos
    have h2 : (2 : ℚ) ^ (Dbl.expo a + 1) = (2 : ℚ) ^ (Dbl.expo a - 8) * 512 := by
      rw [show Dbl.expo a + 1 = (Dbl.expo a - 8) + 9 by ring,
        zpow_add₀ (by norm_num : (2 : ℚ) ≠ 0)]
      norm_num
    have h3 : (0 : ℚ) < (2 : ℚ) ^ (Dbl.expo a - 8) := zpow_pos (by norm_num) _
    rw [div_lt_iff₀ (by norm_num : (0 : ℚ) < 1000)]
    nlinarith
  have he : Dbl.expo (a / 1000) < Dbl.expo a - 8 :=
    Dbl.expo_lt (a / 1000) _ hx (by omega) hlt
  have hle : Dbl.expo (a / 1000) - 52 + 9 ≤ Dbl.expo a - 52 := by omega
  have h4 : (2 : ℚ) ^ (Dbl.expo (a / 1000) - 52 + 9) ≤ (2 : ℚ) ^ (Dbl.expo a - 52) :=
    zpow_le_zpow_right₀ (by norm_num) hle
  rw [zpow_add₀ (by norm_num : (2 : ℚ) ≠ 0)] at h4
  unfold Dbl.ulp
  norm_num at h4
  linarith

/-- The `double` quotient `a / 1000.0` of a `double` weight `a` below `2 ^ 53`
that does not underflow to zero has the ceiling of the exact quotient. -/
theorem Dbl.ceil_div_thousand (a d : ℚ) (ha : 0 < a) (hdbl : Dbl.round a = Dbl.fin a)
    (h53 : a < (2 : ℚ) ^ (53 : Int)) (hd : Dbl.round (a / 1000) = Dbl.fin d) (hpos : 0 < d) :
    ⌈d⌉ = ⌈a / 1000⌉ := by
  have hx : (0 : ℚ) < a / 1000 := div_pos ha (by norm_num)
  have hxlt : a / 1000 < (2 : ℚ) ^ (53 : Int) := by
    have : a / 1000 ≤ a := by
      rw [div_le_iff₀ (by norm_num : (0 : ℚ) < 1000)]
      linarith
    linarith
  apply le_antisymm
  · -- rounding is monotone and keeps the integer `⌈a / 1000⌉`
    have hm0 : 0 ≤ ⌈a / 1000⌉ := (Int.ceil_pos.mpr hx).le
    have hm53 : ⌈a / 1000⌉ < 2 ^ 53 := by
      have h1 := Int.ceil_lt_add_one (a / 1000)
      have h2 : a / 1000 < (2 : ℚ) ^ (53 : Int) / 1000 := by
        apply div_lt_div_of_pos_right h53 (by norm_num)
      have h3 : ((⌈a / 1000⌉ : Int) : ℚ) < ((2 ^ 53 : Int) : ℚ) := by
        push_cast
        norm_num at h2 ⊢
        linarith
      exact_mod_cast h3
    have hr := Dbl.round_mono (a / 1000) (⌈a / 1000⌉ : ℚ) hx.le (Int.le_ceil _)
    rw [hd, Dbl.round_intCast _ hm0 hm53] at hr
    simp only [Dbl.le, decide_eq_true_eq] at hr
    exact Int.ceil_le.mpr hr
  · apply Int.ceil_le.mpr
    by_contra hcon
    have hlt : ((⌈d⌉ : Int) : ℚ) < a / 1000 := not_le.mp hcon
    have hk1 : 1 ≤ ⌈d⌉ := Int.ceil_pos.mpr hpos
    have hk1q : (1 : ℚ) ≤ ((⌈d⌉ : Int) : ℚ) := by exact_mod_cast hk1
    have hk53 : ⌈d⌉ < 2 ^ 53 := by
      have h3 : ((⌈d⌉ : Int) : ℚ) < ((2 ^ 53 : Int) : ℚ) := by
        push_cast
        norm_num at hxlt ⊢
        linarith
      exact_mod_cast h3
    have hr := Dbl.round_mono (⌈d⌉ : ℚ) (a / 1000) (by linarith) hlt.le
    rw [hd, Dbl.round_intCast _ (by omega) hk53] at hr
    simp only [Dbl.le, decide_eq_true_eq] at hr
    have hdk : d = ((⌈d⌉ : Int) : ℚ) := le_antisymm (Int.le_ceil d) hr
    have hmag := Dbl.roundMag_of_round (a / 1000) d hx hd
    have herr := Dbl.sub_roundMag_le (a / 1000)
    rw [hmag, hdk] at herr
    have ha1000 : 1000 < a := by
      rw [lt_div_iff₀ (by norm_num : (0 : ℚ) < 1000)] at hlt
      linarith
    have hshrink := Dbl.ulp_div_thousand a ha1000
    have hgrid := Dbl.ulp_le_sub_intCast a (1000 * ⌈d⌉) ha hdbl h53 (by
      rw [lt_div_iff₀ (by norm_num : (0 : ℚ) < 1000)] at hlt
      push_cast
      linarith)
    have hu := Dbl.ulp_pos a
    push_cast at hgrid
    linarith

theorem shippingFee_ceil (a : ℚ) (hdbl : Dbl.round a = Dbl.fin a)
    (hlow : (2 : ℚ) ^ (-1064 : Int) ≤ a) (h53 : a < (2 : ℚ) ^ (53 : Int)) :
    shippingFee (Dbl.fin a) = Dbl.fin ((10 * ⌈a / 1000⌉ : Int) : ℚ) := by
  have ha : 0 < a := lt_of_lt_of_le (zpow_pos (by norm_num) _) hlow
  have hx : (0 : ℚ) < a / 1000 := div_pos ha (by norm_num)
  have hw : Dbl.gt (Dbl.fin a) (Dbl.fin 0) = true := by simp [Dbl.gt, Dbl.lt, ha]
  have hdiv : Dbl.div (Dbl.fin a) (Dbl.fin 1000) = Dbl.round (a / 1000) := by
    simp only [Dbl.div]
    rw [if_neg (by norm_num)]
  -- the quotient does not overflow
  have hup := Dbl.round_mono (a / 1000) (((2 : Int) ^ 52 : Int) : ℚ) hx.le (by
    have : a / 1000 ≤ a := by
      rw [div_le_iff₀ (by norm_num : (0 : ℚ) < 1000)]
      linarith
    push_cast
    norm_num at h53 ⊢
    linarith)
  -- the quotient does not underflow to zero
  have hdown := Dbl.round_mono ((2 : ℚ) ^ (-1064 : Int) / 1000) (a / 1000)
    (div_nonneg (zpow_pos (by norm_num) _).le (by norm_num))
    (div_le_div_of_nonneg_right hlow (by norm_num))
  have hmin : Dbl.round ((2 : ℚ) ^ (-1064 : Int) / 1000) = Dbl.fin ((2 : ℚ) ^ (-1074 : Int)) := by
    decide!
  rw [hmin] at hdown
  cases hq : Dbl.round (a / 1000) with
  | nan => rw [hq] at hdown; simp [Dbl.le] at hdown
  | inf s =>
    rw [hq] at hup hdown
    cases s
    · rw [Dbl.round_intCast _ (by norm_num) (by norm_num)] at hup
      simp [Dbl.le] at hup
    · simp [Dbl.le] at hdown
  | fin d =>
    rw [hq] at hdown
    simp only [Dbl.le, decide_eq_true_eq] at hdown
    have hpos : 0 < d := lt_of_lt_of_le (zpow_pos (by norm_num) _) hdown
    have hceil := Dbl.ceil_div_thousand a d ha hdbl h53 hq hpos
    have hsmall : 10 * ⌈a / 1000⌉ < 2 ^ 53 := by
      have h1 := Int.ceil_lt_add_one (a / 1000)
      have h3 : ((10 * ⌈a / 1000⌉ : Int) : ℚ) < ((2 ^ 53 : Int) : ℚ) := by
        push_cast
        norm_num at h53 ⊢
        linarith
      exact_mod_cast h3
    rw [← hceil] at hsmall ⊢
    exact shippingFee_exact (Dbl.fin a) d hw (hdiv.trans hq) hpos hsmall

/-! ## Sums of whole numbers -/

/-- Counterexample to C2 as stated: `Product("Ghost", NAN, 5)` is constructed
(`NaN <= 0` is false); Yasser's checkout of one Ghost has the total NaN, which
is neither `>` nor `<=` his balance 100, and it succeeds, leaving the balance
NaN: checkout succeeds although `total <= balance` does not hold. -/
theorem checkout_outcome_order_counterexample :
    Product.new "Ghost" Dbl.nan 5 = .ok (ghostHeap 0) ∧
    totalOf ghostHeap oneItemCart.items = Dbl.nan ∧
    (checkout Clock.initial ghostHeap yasser oneItemCart).customer.balance = Dbl.nan ∧
    ¬ ((checkout Clock.initial ghostHeap yasser oneItemCart).succeeded = true ↔
      oneItemCart.items ≠ [] ∧
        (∀ it ∈ oneItemCart.items, (ghostHeap it.product).isExpired Clock.initial = false) ∧
        Dbl.le (totalOf ghostHeap oneItemCart.items) yasser.balance = true) := by
  have hs : (checkout Clock.initial ghostHeap yasser oneItemCart).succeeded = true := by decide!
  have hle : Dbl.le (totalOf ghostHeap oneItemCart.items) yasser.balance = false := by decide!
  refine ⟨by decide!, by decide!, by decide!, ?_⟩
  intro hiff
  have h := (hiff.mp hs).2.2
  rw [hle] at h
  cases h

/-- C2, amended: the outcome of `checkout` is decided in order: the empty-cart
message iff the cart has no items; otherwise the expired-item message, naming
the first expired item in cart order, iff some item is expired; otherwise the
insufficient-balance message iff `total > balance`, where `total` is the total
the pricing part computed; otherwise success.  Checkout succeeds iff the cart
is non-empty, no item is expired and `total > balance` is false, which is
`total <= balance` when neither of the two is NaN. -/
theorem checkout_outcome_order_amended (clock : Clock) (heap : Heap) (customer : Customer)
    (cart : Cart) :
    ((checkout clock heap customer cart).out = [Msg.cartEmpty] ↔ cart.items = []) ∧
    (cart.items ≠ [] →
      ((∃ name, (checkout clock heap customer cart).out = [Msg.itemExpired name]) ↔
        ∃ it ∈ cart.items, (heap it.product).isExpired clock = true) ∧
      ∀ pre item post, cart.items = pre ++ item :: post →
        (∀ x ∈ pre, (heap x.product).isExpired clock = false) →
        (heap item.product).isExpired clock = true →
        (checkout clock heap customer cart).out =
          [Msg.itemExpired (heap item.product).getName]) ∧
    (cart.items ≠ [] → (∀ it ∈ cart.items, (heap it.product).isExpired clock = false) →
      (∃ pr : Pricing, pricing clock heap cart.getItems = .ok pr ∧
        pr.total = totalOf heap cart.items) ∧
      ((checkout clock heap customer cart).out = [Msg.insufficientBalance] ↔
        Dbl.gt (totalOf heap cart.items) customer.balance = true) ∧
      (¬ Dbl.gt (totalOf heap cart.items) customer.balance = true →
        (checkout clock heap customer cart).succeeded = true)) ∧
    ((checkout clock heap customer cart).succeeded = true ↔
      cart.items ≠ [] ∧ (∀ it ∈ cart.items, (heap it.product).isExpired clock = false) ∧
        Dbl.gt (totalOf heap cart.items) customer.balance = false) ∧
    (totalOf heap cart.items ≠ Dbl.nan → customer.balance ≠ Dbl.nan →
      ((checkout clock heap customer cart).succeeded = true ↔
        cart.items ≠ [] ∧ (∀ it ∈ cart.items, (heap it.product).isExpired clock = false) ∧
          Dbl.le (totalOf heap cart.items) customer.balance = true)) := by
  refine ⟨?_, ?_, ?_, ?_, ?_⟩
  · by_cases hne : cart.items = []
    · simp [checkout_empty clock heap customer cart hne, hne]
    · cases hexp : hasExpired clock heap cart.items
      · cases hbal : Dbl.gt (totalOf heap cart.items) customer.balance
        · have hs := (succeeded_iff clock heap customer cart).mpr ⟨hne, hexp, hbal⟩
          simp [out_ne_of_succeeded _ Msg.cartEmpty hs rfl, hne]
        · simp [checkout_insufficient clock heap customer cart hne hexp hbal, hne]
      · obtain ⟨pre, item, post, hs, hp, hi⟩ := hasExpired_split clock heap cart.items hexp
        simp [checkout_expired clock heap customer cart pre post item hs hp hi, hne]
  · intro hne
    constructor
    · rw [← hasExpired_eq_true_iff]
      cases hexp : hasExpired clock heap cart.items
      · cases hbal : Dbl.gt (totalOf heap cart.items) customer.balance
        · have hs := (succeeded_iff clock heap customer cart).mpr ⟨hne, hexp, hbal⟩
          simp [fun name => out_ne_of_succeeded _ (Msg.itemExpired name) hs rfl]
        · simp [checkout_insufficient clock heap customer cart hne hexp hbal]
      · obtain ⟨pre, item, post, hs, hp, hi⟩ := hasExpired_split clock heap cart.items hexp
        simp [checkout_expired clock heap customer cart pre post item hs hp hi]
    · intro pre item post hs hp hi
      have hp2 := (hasExpired_eq_false_iff clock heap pre).mpr hp
      rw [checkout_expired clock heap customer cart pre post item hs hp2 hi]
  · intro hne hexp
    have hexp2 := (hasExpired_eq_false_iff clock heap cart.items).mpr hexp
    refine ⟨⟨_, pricing_ok clock heap cart.items hexp2, rfl⟩, ?_, ?_⟩
    · cases hbal : Dbl.gt (totalOf heap cart.items) customer.balance
      · have hs := (succeeded_iff clock heap customer cart).mpr ⟨hne, hexp2, hbal⟩
        simp [out_ne_of_succeeded _ Msg.insufficientBalance hs rfl]
      · simp [checkout_insufficient clock heap customer cart hne hexp2 hbal]
    · intro hbal
      exact (succeeded_iff clock heap customer cart).mpr
        ⟨hne, hexp2, by simpa using hbal⟩
  · rw [succeeded_iff, hasExpired_eq_false_iff]
  · intro ht hb
    rw [succeeded_iff, hasExpired_eq_false_iff, Dbl.le_of_gt_false _ _ ht hb]

/-- Example for the amended C2 from `main`: a cart holding a valid item (Cheese)
and then the expired `ships` (expiry 2025-01, clock 2025-07) is rejected naming
`ships`, and the checkout does not succeed, although Anas could pay. -/
theorem checkout_outcome_order_amended_witness :
    (checkout Clock.initial mainHeap anas { items := [⟨0, 1⟩, ⟨4, 5⟩] }).out =
        [Msg.itemExpired "ships"] ∧
      ¬ (checkout Clock.initial mainHeap anas { items := [⟨0, 1⟩, ⟨4, 5⟩] }).succeeded = true :=
  ⟨(checkout_outcome_order_amended Clock.initial mainHeap anas
      { items := [⟨0, 1⟩, ⟨4, 5⟩] }).2.1
      (by decide) |>.2 [⟨0, 1⟩] ⟨4, 5⟩ [] rfl (by decide) (by decide),
    fun h =>
      absurd (((checkout_outcome_order_amended Clock.initial mainHeap anas
        { items := [⟨0, 1⟩, ⟨4, 5⟩] }).2.2.2.1.mp h).2.1 ⟨4, 5⟩ (by decide)) (by decide)⟩

/-! ## Rejections have no effect -/

/-- C3: whenever `checkout` rejects — it prints a rejection message, or the cart
is empty, or some item in the cart is expired, or the total exceeds the
customer's balance — the customer (so the balance) and the whole product store
(so every stock) are exactly what they were before the call, and the output is a
rejection. -/
theorem checkout_rejected_no_effect (clock : Clock) (heap : Heap) (customer : Customer)
    (cart : Cart)
    (h : (checkout clock heap customer cart).rejected = true ∨ cart.items = [] ∨
      (∃ it ∈ cart.items, (heap it.product).isExpired clock = true) ∨
      Dbl.gt (totalOf heap cart.items) customer.balance = true) :
    (checkout clock heap customer cart).rejected = true ∧
      (checkout clock heap customer cart).succeeded = false ∧
      (checkout clock heap customer cart).customer.balance = customer.balance ∧
      (checkout clock heap customer cart).customer = customer ∧
      (∀ a, ((checkout clock heap customer cart).heap a).quantity = (heap a).quantity) ∧
      (checkout clock heap customer cart).heap = heap := by
  have hcause : cart.items = [] ∨ hasExpired clock heap cart.items = true ∨
      Dbl.gt (totalOf heap cart.items) customer.balance = true := by
    rcases h with h | h | h | h
    · exact (rejected_iff clock heap customer cart).mp h
    · exact Or.inl h
    · exact Or.inr (Or.inl ((hasExpired_eq_true_iff clock heap cart.items).mpr h))
    · exact Or.inr (Or.inr h)
  have hrej := (rejected_iff clock heap customer cart).mpr hcause
  obtain ⟨hc, hh⟩ := rejected_unchanged clock heap customer cart hcause
  have hns : (checkout clock heap customer cart).succeeded = false := by
    cases hs : (checkout clock heap customer cart).succeeded
    · rfl
    · obtain ⟨hne, hexp, hbal⟩ := (succeeded_iff clock heap customer cart).mp hs
      rcases hcause with h | h | h
      · exact absurd h hne
      · rw [hexp] at h; cases h
      · rw [hbal] at h; cases h
  exact ⟨hrej, hns, by rw [hc], hc, fun a => by rw [hh], hh⟩

/-- Witness of C3: Anas's cart with a valid Cheese and the expired `ships` is
rejected; Anas keeps 10000 and the Cheese stock stays at 10. -/
theorem checkout_rejected_no_effect_witness :
    (checkout Clock.initial mainHeap anas { items := [⟨0, 1⟩, ⟨4, 5⟩] }).customer.balance
        = Dbl.fin 10000 ∧
      ((checkout Clock.initial mainHeap anas { items := [⟨0, 1⟩, ⟨4, 5⟩] }).heap 0).quantity
        = 10 := by
  have h := checkout_rejected_no_effect Clock.initial mainHeap anas { items := [⟨0, 1⟩, ⟨4, 5⟩] }
    (Or.inr (Or.inr (Or.inl ⟨⟨4, 5⟩, by decide, by decide⟩)))
  exact ⟨h.2.2.1, h.2.2.2.2.1 0⟩

/-! ## Successful checkouts -/

/-- Counterexample to C4 as stated: Croesus, balance `1e16`, buys one Coin for 1;
the checkout succeeds, the total paid is 1 and the balance afterwards is still
`1e16`, not `1e16 - 1`. -/
theorem checkout_success_payment_counterexample :
    croesus.balance.isDouble = true ∧
    (checkout Clock.initial coinHeap croesus oneItemCart).succeeded = true ∧
    totalOf coinHeap oneItemCart.items = Dbl.fin 1 ∧
    (checkout Clock.initial coinHeap croesus oneItemCart).customer.balance =
      Dbl.fin 10000000000000000 ∧
    (checkout Clock.initial coinHeap croesus oneItemCart).customer.balance.toRat ≠
      croesus.balance.toRat - (totalOf coinHeap oneItemCart.items).toRat := by
  refine ⟨by decide!, by decide!, by decide!, by decide!, by decide!⟩

/-- C4, amended: on every successful checkout the pricing part returned some `pr`
whose `total` is the `double` sum `subtotal + shipping`, `pay(pr.total)`
returned `true`, the customer's balance afterwards is the `double` difference
of the balance before and `pr.total` — the exact difference whenever that is a
`double` — and the receipt shows these amounts and that remaining balance. -/
theorem checkout_success_payment_amended (clock : Clock) (heap : Heap) (customer : Customer)
    (cart : Cart) (h : (checkout clock heap customer cart).succeeded = true) :
    ∃ pr : Pricing, pricing clock heap cart.getItems = .ok pr ∧
      pr.total = Dbl.add pr.subtotal pr.shipping ∧
      customer.pay pr.total = (true, (checkout clock heap customer cart).customer) ∧
      (checkout clock heap customer cart).customer.balance =
        Dbl.sub customer.balance pr.total ∧
      (∀ b t : ℚ, customer.balance = Dbl.fin b → pr.total = Dbl.fin t →
        Dbl.round (b - t) = Dbl.fin (b - t) →
        (checkout clock heap customer cart).customer.balance = Dbl.fin (b - t)) ∧
      (checkout clock heap customer cart).customer.name = customer.name ∧
      ∃ notice lines, (checkout clock heap customer cart).out =
        notice ++ [Msg.receipt lines pr.subtotal pr.shipping pr.total
          (checkout clock heap customer cart).customer.balance] := by
  obtain ⟨hne, hexp, hbal⟩ := (succeeded_iff clock heap customer cart).mp h
  have hb : (checkout clock heap customer cart).customer.balance =
      Dbl.sub customer.balance (totalOf heap cart.items) := by
    rw [checkout_paid clock heap customer cart hne hexp hbal]
  refine ⟨_, pricing_ok clock heap cart.items hexp, rfl, ?_, hb, ?_, ?_, ?_⟩
  · simp [checkout_paid clock heap customer cart hne hexp hbal, Customer.pay, hbal]
  · intro b t hcb ht hr
    have ht2 : totalOf heap cart.items = Dbl.fin t := ht
    rw [hb, hcb, ht2]
    simp only [Dbl.sub, Dbl.neg, Dbl.add]
    rw [← sub_eq_add_neg, hr]
  · simp [checkout_paid clock heap customer cart hne hexp hbal]
  · rw [checkout_paid clock heap customer cart hne hexp hbal]
    exact ⟨_, _, rfl⟩

theorem pricing_cheeseTv :
    pricing Clock.initial mainHeap cheeseTvCart.getItems =
      .ok { subtotal := Dbl.fin 2000, shipping := Dbl.fin 220, totalWeight := Dbl.fin 21800,
            shippables := [⟨0, 2⟩, ⟨2, 3⟩], total := Dbl.fin 2220 } := by decide!

theorem succeeded_ahmed :
    (checkout Clock.initial mainHeap ahmed cheeseTvCart).succeeded = true := by decide!

/-- Witness of the amended C4: Ahmed (balance 5000) checks out Cheese x2 / TV x3,
pays the total 2220 and is left with 2780; no step rounds. -/
theorem checkout_success_payment_amended_witness :
    (checkout Clock.initial mainHeap ahmed cheeseTvCart).customer.balance = Dbl.fin 2780 := by
  obtain ⟨pr, hpr, _, _, _, hexact, _, _⟩ :=
    checkout_success_payment_amended Clock.initial mainHeap ahmed cheeseTvCart succeeded_ahmed
  rw [pricing_cheeseTv] at hpr
  injection hpr with hpr
  have h := hexact 5000 2220 rfl (by rw [← hpr]) (by decide!)
  rw [h]
  norm_num

/-- Counterexample to C5 as stated: on the catalog of `main`, `add(scratchCard,
INT_MIN)` is accepted (it does not exceed the stock 20), Ahmed's checkout of
that cart succeeds, and the ScratchCard stock afterwards is `-2147483628`, not
`20 - INT_MIN = 2147483668`. -/
theorem checkout_success_stock_counterexample :
    (addAll mainHeap Cart.empty [(3, -2147483648)]).items = [⟨3, -2147483648⟩] ∧
    (checkout Clock.initial mainHeap ahmed
      (addAll mainHeap Cart.empty [(3, -2147483648)])).succeeded = true ∧
    ((checkout Clock.initial mainHeap ahmed
      (addAll mainHeap Cart.empty [(3, -2147483648)])).heap 3).quantity = -2147483628 ∧
    ((checkout Clock.initial mainHeap ahmed
      (addAll mainHeap Cart.empty [(3, -2147483648)])).heap 3).quantity ≠
      (mainHeap 3).quantity -
        (((addAll mainHeap Cart.empty [(3, -2147483648)]).items.filter
          fun it => it.product = 3).map fun it => it.quantity).sum := by
  refine ⟨by decide, by decide!, by decide!, by decide!⟩

/-- C5, amended: on every successful checkout the stock of each product that the
cart refers to becomes the old stock minus the sum of the requested quantities
of all cart items that hold its address, shippable or not, reduced into the
`int` range modulo `2 ^ 32` — so exactly that difference whenever it lies in
the `int` range; nothing else in the product changes, and a product that no
cart item refers to is unchanged. -/
theorem checkout_success_stock_amended (clock : Clock) (heap : Heap) (customer : Customer)
    (cart : Cart) (h : (checkout clock heap customer cart).succeeded = true) (a : Nat) :
    ((∃ it ∈ cart.items, it.product = a) →
      ((checkout clock heap customer cart).heap a).quantity =
        wrapInt ((heap a).quantity -
          ((cart.items.filter fun it => it.product = a).map fun it => it.quantity).sum)) ∧
    (inIntRange (heap a).quantity →
      inIntRange ((heap a).quantity -
          ((cart.items.filter fun it => it.product = a).map fun it => it.quantity).sum) →
      ((checkout clock heap customer cart).heap a).quantity =
        (heap a).quantity -
          ((cart.items.filter fun it => it.product = a).map fun it => it.quantity).sum) ∧
    ((checkout clock heap customer cart).heap a).name = (heap a).name ∧
    ((checkout clock heap customer cart).heap a).price = (heap a).price ∧
    ((checkout clock heap customer cart).heap a).variant = (heap a).variant ∧
    ((∀ it ∈ cart.items, it.product ≠ a) →
      (checkout clock heap customer cart).heap a = heap a) := by
  obtain ⟨hne, hexp, hbal⟩ := (succeeded_iff clock heap customer cart).mp h
  have hheap : (checkout clock heap customer cart).heap = reduceStock heap cart.items := by
    rw [checkout_paid clock heap customer cart hne hexp hbal]
  have hf := reduceStock_frame heap cart.items a
  rw [hheap]
  refine ⟨?_, ?_, hf.1, hf.2.1, hf.2.2, ?_⟩
  · rintro ⟨it, hit, hp⟩
    have hany : cart.items.any (fun it => decide (it.product = a)) = true :=
      List.any_eq_true.mpr ⟨it, hit, by simpa using hp⟩
    rw [reduceStock_at, if_pos hany]
    rfl
  · intro hr1 hr2
    rw [reduceStock_at]
    split
    · exact wrapInt_of_inIntRange _ hr2
    · rename_i hany
      have hnil : (cart.items.filter fun it => decide (it.product = a)) = [] := by
        rw [List.filter_eq_nil_iff]
        intro it hit hc
        exact hany (List.any_eq_true.mpr ⟨it, hit, hc⟩)
      simp [hnil]
  · intro hnot
    have hany : ¬ cart.items.any (fun it => decide (it.product = a)) = true := by
      intro hc
      obtain ⟨it, hit, hp⟩ := List.any_eq_true.mp hc
      exact hnot it hit (by simpa using hp)
    rw [reduceStock_at, if_neg hany]

/-- Witness of the amended C5: after Ahmed's checkout of Cheese x2 / TV x3 the
Cheese stock is 10 - 2 = 8, the TV stock is 3 - 3 = 0 and the ScratchCard stock
is still 20. -/
theorem checkout_success_stock_amended_witness :
    ((checkout Clock.initial mainHeap ahmed cheeseTvCart).heap 0).quantity = 8 ∧
      ((checkout Clock.initial mainHeap ahmed cheeseTvCart).heap 2).quantity = 0 ∧
      (checkout Clock.initial mainHeap ahmed cheeseTvCart).heap 3 = mainHeap 3 :=
  ⟨(checkout_success_stock_amended Clock.initial mainHeap ahmed cheeseTvCart succeeded_ahmed
      0).2.1 (by decide) (by decide),
    (checkout_success_stock_amended Clock.initial mainHeap ahmed cheeseTvCart succeeded_ahmed
      2).2.1 (by decide) (by decide),
    (checkout_success_stock_amended Clock.initial mainHeap ahmed cheeseTvCart succeeded_ahmed
      3).2.2.2.2.2 (by decide)⟩


/-! ## Product construction -/

/-- C6: for each of the three constructors and all arguments, construction
throws (always the validation error) iff `price <= 0` or `quantity <= 0`; with
`price > 0` and `quantity > 0` it succeeds and the product has exactly the given
name, price and stock (and the variant's own members). -/
theorem construction_validation (n : String) (p : Dbl) (q : Int) (exp : Tm) (w : Dbl) :
    (((∃ e, Product.new n p q = .error e) ↔ Dbl.le p (Dbl.fin 0) = true ∨ q ≤ 0) ∧
      ((∃ e, PerishableProduct.new n p q exp w = .error e) ↔
        Dbl.le p (Dbl.fin 0) = true ∨ q ≤ 0) ∧
      ((∃ e, ShippableProduct.new n p q w = .error e) ↔
        Dbl.le p (Dbl.fin 0) = true ∨ q ≤ 0)) ∧
    (∀ e, (Product.new n p q = .error e ∨ PerishableProduct.new n p q exp w = .error e ∨
      ShippableProduct.new n p q w = .error e) → e = validationError) ∧
    (Dbl.gt p (Dbl.fin 0) = true → 0 < q →
      Product.new n p q =
        .ok { name := n, price := p, quantity := q, variant := .plain } ∧
      PerishableProduct.new n p q exp w =
        .ok { name := n, price := p, quantity := q, variant := .perishable exp w } ∧
      ShippableProduct.new n p q w =
        .ok { name := n, price := p, quantity := q, variant := .shippable w }) := by
  by_cases h : Dbl.le p (Dbl.fin 0) = true ∨ q ≤ 0
  · have hbase : Product.new n p q = .error validationError := by simp [Product.new, h]
    refine ⟨⟨?_, ?_, ?_⟩, ?_, ?_⟩
    · simp [hbase, h]
    · simp [PerishableProduct.new, hbase, h]
    · simp [ShippableProduct.new, hbase, h]
    · intro e he
      simpa [PerishableProduct.new, ShippableProduct.new, hbase, eq_comm] using he
    · intro hp hq
      rcases h with h | h
      · rw [Dbl.le_false_of_gt p (Dbl.fin 0) hp] at h
        cases h
      · exact absurd hq (not_lt.mpr h)
  · have hbase : Product.new n p q =
        .ok { name := n, price := p, quantity := q, variant := .plain } := by
      simp [Product.new, h]
    refine ⟨⟨?_, ?_, ?_⟩, ?_, ?_⟩
    · simp [hbase, h]
    · simp [PerishableProduct.new, hbase, h]
    · simp [ShippableProduct.new, hbase, h]
    · intro e he
      simp [PerishableProduct.new, ShippableProduct.new, hbase] at he
    · intro _ _
      simp [PerishableProduct.new, ShippableProduct.new, hbase]

/-- Witness of C6: `Product("Apples", 0, 10)` throws, and `Product("ScratchCard",
50, 20)` is built with that name, price and stock. -/
theorem construction_validation_witness :
    (∃ e, Product.new "Apples" (Dbl.fin 0) 10 = .error e) ∧
      Product.new "ScratchCard" (Dbl.fin 50) 20 =
        .ok { name := "ScratchCard", price := Dbl.fin 50, quantity := 20, variant := .plain } :=
  ⟨(construction_validation "Apples" (Dbl.fin 0) 10 (createDate 2025 1 1) (Dbl.fin 0)).1.1.mpr
      (Or.inl (by decide)),
    ((construction_validation "ScratchCard" (Dbl.fin 50) 20 (createDate 2025 1 1)
      (Dbl.fin 0)).2.2 (by decide) (by decide)).1⟩

/-! ## Expiry -/

/-- C7: a perishable product whose expiry date is `createDate(year, month, day)`
is expired iff `currentYear > year`, or `currentYear = year` and
`currentMonth > month`; the day does not affect the result; plain and shippable
products are never expired. -/
theorem isExpired_year_month (clock : Clock) (n : String) (p : Dbl) (q : Int)
    (year month day : Int) (w : Dbl) :
    (Product.isExpired clock
        { name := n, price := p, quantity := q,
          variant := .perishable (createDate year month day) w } = true ↔
      clock.currentYear > year ∨
        (clock.currentYear = year ∧ clock.currentMonth > month)) ∧
    (∀ day2 : Int,
      Product.isExpired clock
          { name := n, price := p, quantity := q,
            variant := .perishable (createDate year month day2) w } =
        Product.isExpired clock
          { name := n, price := p, quantity := q,
            variant := .perishable (createDate year month day) w }) ∧
    Product.isExpired clock { name := n, price := p, quantity := q, variant := .plain }
      = false ∧
    Product.isExpired clock { name := n, price := p, quantity := q, variant := .shippable w }
      = false := by
  refine ⟨?_, fun _ => rfl, rfl, rfl⟩
  simp only [Product.isExpired, createDate, sub_add_cancel]
  by_cases h1 : clock.currentYear > year
  · simp [h1]
  · by_cases h2 : clock.currentYear = year ∧ clock.currentMonth > month
    · simp [h2]
    · simp [h1, h2]

/-- Witness of C7: expiry (2025, 7) is expired at (2025, 8) and (2026, 1), and not
expired at (2025, 7) or (2025, 6). -/
theorem isExpired_year_month_witness :
    Product.isExpired ⟨2025, 8⟩ (mainHeap 0) = true ∧
      Product.isExpired ⟨2026, 1⟩ (mainHeap 0) = true ∧
      ¬ Product.isExpired ⟨2025, 7⟩ (mainHeap 0) = true ∧
      ¬ Product.isExpired ⟨2025, 6⟩ (mainHeap 0) = true :=
  ⟨(isExpired_year_month ⟨2025, 8⟩ "Cheese" (Dbl.fin 100) 10 2025 7 10 (Dbl.fin 400)).1.mpr
      (by decide),
    (isExpired_year_month ⟨2026, 1⟩ "Cheese" (Dbl.fin 100) 10 2025 7 10 (Dbl.fin 400)).1.mpr
      (by decide),
    fun h => absurd
      ((isExpired_year_month ⟨2025, 7⟩ "Cheese" (Dbl.fin 100) 10 2025 7 10 (Dbl.fin 400)).1.mp h)
      (by decide),
    fun h => absurd
      ((isExpired_year_month ⟨2025, 6⟩ "Cheese" (Dbl.fin 100) 10 2025 7 10 (Dbl.fin 400)).1.mp h)
      (by decide)⟩

/-! ## Shippability -/

/-- Counterexample to C8 as stated: `ShippableProduct("Voucher", 50, 20, 0)` is
constructed, `isShippable()` is `true` and `getWeight()` is `0`. -/
theorem isShippable_iff_weight_counterexample :
    ∃ prod : Product,
      ShippableProduct.new "Voucher" (Dbl.fin 50) 20 (Dbl.fin 0) = .ok prod ∧
      ¬ (prod.isShippable = true ↔ Dbl.gt prod.getWeight (Dbl.fin 0) = true) := by
  refine ⟨{ name := "Voucher", price := Dbl.fin 50, quantity := 20,
            variant := .shippable (Dbl.fin 0) }, by decide!, by decide!⟩

/-- C8, amended: for every constructed plain or perishable product
`isShippable()` is `true` iff `getWeight() > 0`; for every constructed
`ShippableProduct`, `isShippable()` is `true` and `getWeight()` is the weight
`w` it was built with, whatever `w` is, so the equivalence holds for it exactly
when `w > 0`. -/
theorem isShippable_iff_weight_amended (n : String) (p : Dbl) (q : Int) (exp : Tm) (w : Dbl) :
    (∀ prod : Product, Product.new n p q = .ok prod →
      (prod.isShippable = true ↔ Dbl.gt prod.getWeight (Dbl.fin 0) = true)) ∧
    (∀ prod : Product, PerishableProduct.new n p q exp w = .ok prod →
      (prod.isShippable = true ↔ Dbl.gt prod.getWeight (Dbl.fin 0) = true)) ∧
    (∀ prod : Product, ShippableProduct.new n p q w = .ok prod →
      prod.isShippable = true ∧ prod.getWeight = w ∧
        ((prod.isShippable = true ↔ Dbl.gt prod.getWeight (Dbl.fin 0) = true) ↔
          Dbl.gt w (Dbl.fin 0) = true)) := by
  by_cases h : Dbl.le p (Dbl.fin 0) = true ∨ q ≤ 0
  · have hbase : Product.new n p q = .error validationError := by simp [Product.new, h]
    simp [PerishableProduct.new, ShippableProduct.new, hbase]
  · have hbase : Product.new n p q =
        .ok { name := n, price := p, quantity := q, variant := .plain } := by
      simp [Product.new, h]
    refine ⟨?_, ?_, ?_⟩
    · intro prod hprod
      rw [hbase] at hprod
      injection hprod with hprod
      subst hprod
      simp [Product.isShippable, Product.getWeight, Dbl.gt, Dbl.lt]
    · intro prod hprod
      simp only [PerishableProduct.new, hbase] at hprod
      injection hprod with hprod
      subst hprod
      simp [Product.isShippable, Product.getWeight]
    · intro prod hprod
      simp only [ShippableProduct.new, hbase] at hprod
      injection hprod with hprod
      subst hprod
      simp [Product.isShippable, Product.getWeight]

/-- Witness of the amended C8 on the catalog of `main`: the Cheese (perishable,
400g) and the TV (shippable, 7000g) are shippable, the Biscuits (perishable, no
weight) are not. -/
theorem isShippable_iff_weight_amended_witness :
    (mainHeap 0).isShippable = true ∧ (mainHeap 2).isShippable = true ∧
      ¬ (mainHeap 1).isShippable = true :=
  ⟨((isShippable_iff_weight_amended "Cheese" (Dbl.fin 100) 10 (createDate 2025 7 10)
      (Dbl.fin 400)).2.1 (mainHeap 0) (by decide!)).mpr (by decide!),
    ((isShippable_iff_weight_amended "TV" (Dbl.fin 600) 3 (createDate 2025 7 10)
      (Dbl.fin 7000)).2.2 (mainHeap 2) (by decide!)).1,
    fun h => absurd
      (((isShippable_iff_weight_amended "Biscuits" (Dbl.fin 150) 5 (createDate 2026 1 1)
        (Dbl.fin 0)).2.1 (mainHeap 1) (by decide!)).mp h)
      (by decide!)⟩

/-! ## Payment -/

/-- Counterexample to C9 as stated: `pay(1)` on the balance `1e16` succeeds and
leaves the balance `1e16`, not `1e16 - 1`. -/
theorem pay_counterexample :
    croesus.balance.isDouble = true ∧
    (croesus.pay (Dbl.fin 1)).1 = true ∧
    (croesus.pay (Dbl.fin 1)).2.balance = Dbl.fin 10000000000000000 ∧
    (croesus.pay (Dbl.fin 1)).2.balance.toRat ≠ croesus.balance.toRat - 1 := by
  refine ⟨by decide!, by decide!, by decide!, by decide!⟩

/-- C9, amended: `pay(amount)` returns `false` iff `amount > balance`, and then
the customer is unchanged; otherwise it returns `true` and the new balance is
the `double` difference `balance - amount`, the name unchanged; that difference
is the exact one whenever the exact one is a `double`. -/
theorem pay_amended (c : Customer) (amount : Dbl) :
    (((c.pay amount).1 = false ∧ (c.pay amount).2.balance = c.balance) ↔
      Dbl.gt amount c.balance = true) ∧
    ((c.pay amount).1 = false ↔ Dbl.gt amount c.balance = true) ∧
    (Dbl.gt amount c.balance = true → (c.pay amount).2 = c) ∧
    (¬ Dbl.gt amount c.balance = true →
      (c.pay amount).1 = true ∧ (c.pay amount).2.balance = Dbl.sub c.balance amount ∧
        (c.pay amount).2.name = c.name) ∧
    (∀ b a : ℚ, c.balance = Dbl.fin b → amount = Dbl.fin a → a ≤ b →
      Dbl.round (b - a) = Dbl.fin (b - a) →
      (c.pay amount).1 = true ∧ (c.pay amount).2.balance = Dbl.fin (b - a)) := by
  refine ⟨?_, ?_, ?_, ?_, ?_⟩
  · cases h : Dbl.gt amount c.balance <;> simp [Customer.pay, h]
  · cases h : Dbl.gt amount c.balance <;> simp [Customer.pay, h]
  · intro h
    simp [Customer.pay, h]
  · intro h
    simp [Customer.pay, h]
  · intro b a hb ha hle hr
    have hgt : Dbl.gt (Dbl.fin a) (Dbl.fin b) = false := by
      simp [Dbl.gt, Dbl.lt, not_lt.mpr hle]
    have hsub : Dbl.sub (Dbl.fin b) (Dbl.fin a) = Dbl.fin (b - a) := by
      simp only [Dbl.sub, Dbl.neg, Dbl.add]
      rw [← sub_eq_add_neg, hr]
    simp [Customer.pay, hb, ha, hgt, hsub]

/-- Witness of the amended C9 with Yasser (balance 100): paying 300 fails and
leaves 100, paying 30 succeeds and leaves 70. -/
theorem pay_amended_witness :
    ((yasser.pay (Dbl.fin 300)).1 = false ∧ (yasser.pay (Dbl.fin 300)).2 = yasser) ∧
      ((yasser.pay (Dbl.fin 30)).1 = true ∧
        (yasser.pay (Dbl.fin 30)).2.balance = Dbl.fin 70) := by
  have h1 := pay_amended yasser (Dbl.fin 300)
  have h2 := (pay_amended yasser (Dbl.fin 30)).2.2.2.2 100 30 rfl rfl (by norm_num)
    (by decide!)
  have hgt : Dbl.gt (Dbl.fin 300) yasser.balance = true := by decide
  refine ⟨⟨h1.2.1.mpr hgt, h1.2.2.1 hgt⟩, h2.1, ?_⟩
  rw [h2.2]
  norm_num


theorem pay_isNonneg (c : Customer) (amount : Dbl) (h : c.balance.isNonneg = true)
    (hnan : amount ≠ Dbl.nan)
    (hinf : c.balance ≠ Dbl.inf false ∨ amount ≠ Dbl.inf false) :
    (c.pay amount).2.balance.isNonneg = true := by
  rcases (Dbl.isNonneg_iff c.balance).mp h with hb | ⟨b, hb0, hb⟩
  · cases amount with
    | nan => exact absurd rfl hnan
    | inf s =>
      cases s with
      | false =>
        rcases hinf with h1 | h1
        · exact absurd hb h1
        · exact absurd rfl h1
      | true => simp [Customer.pay, hb, Dbl.gt, Dbl.lt, Dbl.sub, Dbl.neg, Dbl.add, Dbl.isNonneg, Dbl.le]
    | fin a => simp [Customer.pay, hb, Dbl.gt, Dbl.lt, Dbl.sub, Dbl.neg, Dbl.add, Dbl.isNonneg, Dbl.le]
  · cases amount with
    | nan => exact absurd rfl hnan
    | inf s =>
      cases s <;>
        simp [Customer.pay, hb, hb0, Dbl.gt, Dbl.lt, Dbl.sub, Dbl.neg, Dbl.add, Dbl.isNonneg, Dbl.le]
    | fin a =>
      by_cases hlt : b < a
      · simp [Customer.pay, hb, hb0, Dbl.gt, Dbl.lt, hlt, Dbl.isNonneg, Dbl.le]
      · have hr := Dbl.round_isNonneg (b + -a) (by linarith)
        simpa [Customer.pay, hb, Dbl.gt, Dbl.lt, hlt, Dbl.sub, Dbl.neg, Dbl.add] using hr

theorem pay_isNonneg_of_isPayable (c : Customer) (amount : Dbl) (h : c.balance.isNonneg = true)
    (hfin : amount.isPayable = true) : (c.pay amount).2.balance.isNonneg = true := by
  apply pay_isNonneg c amount h
  · intro hc
    rw [hc] at hfin
    cases hfin
  · right
    intro hc
    rw [hc] at hfin
    cases hfin

theorem checkout_isNonneg (clock : Clock) (heap : Heap) (c : Customer) (cart : Cart)
    (h : c.balance.isNonneg = true) (hfin : totalPayable clock heap cart = true) :
    (checkout clock heap c cart).customer.balance.isNonneg = true := by
  cases hs : (checkout clock heap c cart).succeeded
  · have hrej : cart.items = [] ∨ hasExpired clock heap cart.items = true ∨
        Dbl.gt (totalOf heap cart.items) c.balance = true := by
      by_contra hcon
      simp only [not_or, Bool.not_eq_true] at hcon
      have := (succeeded_iff clock heap c cart).mpr ⟨hcon.1, hcon.2.1, hcon.2.2⟩
      rw [hs] at this
      cases this
    rw [(rejected_unchanged clock heap c cart hrej).1]
    exact h
  · obtain ⟨hne, hexp, hbal⟩ := (succeeded_iff clock heap c cart).mp hs
    have hemp : cart.isEmpty = false := by
      cases hl : cart.items with
      | nil => exact absurd hl hne
      | cons _ _ => simp [Cart.isEmpty, hl]
    have htot : (totalOf heap cart.items).isPayable = true := by
      simpa [totalPayable, hemp, Cart.getItems, pricing_ok clock heap cart.items hexp]
        using hfin
    have hpay := pay_isNonneg_of_isPayable c (totalOf heap cart.items) h htot
    rw [checkout_paid clock heap c cart hne hexp hbal]
    simpa [Customer.pay, hbal] using hpay

/-- Counterexample to C10 as stated: Yasser's balance 100 is `>= 0`; `pay(NaN)`
returns `true` (`NaN > 100` is false) and leaves the balance NaN, which is not
`>= 0`. -/
theorem balance_never_negative_counterexample :
    yasser.balance.isNonneg = true ∧
    (yasser.pay Dbl.nan).1 = true ∧
    (yasser.pay Dbl.nan).2.balance = Dbl.nan ∧
    (yasser.pay Dbl.nan).2.balance.isNonneg = false ∧
    (checkout Clock.initial ghostHeap yasser oneItemCart).customer.balance.isNonneg = false := by
  refine ⟨by decide, by decide, by decide, by decide, by decide!⟩

/-- C10, amended: for a customer with `balance >= 0`, the balance is still `>= 0`
after `pay(amount)` for every amount that is not NaN (and not `+inf` when the
balance is `+inf`), of either sign, whether the call succeeds or fails; after
every sequence of `pay` calls with amounts that are neither NaN nor `+inf`;
after every checkout whose total is neither NaN nor `+inf`; and after every
sequence of checkouts whose totals are all neither NaN nor `+inf`. -/
theorem balance_never_negative_amended (c : Customer) (h : c.balance.isNonneg = true) :
    (∀ amount : Dbl, amount ≠ Dbl.nan →
      (c.balance ≠ Dbl.inf false ∨ amount ≠ Dbl.inf false) →
      (c.pay amount).2.balance.isNonneg = true) ∧
    (∀ amounts : List Dbl, (∀ a ∈ amounts, a.isPayable = true) →
      (payAll c amounts).balance.isNonneg = true) ∧
    (∀ (clock : Clock) (heap : Heap) (cart : Cart), totalPayable clock heap cart = true →
      (checkout clock heap c cart).customer.balance.isNonneg = true) ∧
    (∀ (clock : Clock) (heap : Heap) (carts : List Cart),
      allTotalsPayable clock heap c carts = true →
      (checkoutAll clock heap c carts).2.balance.isNonneg = true) := by
  refine ⟨fun amount hnan hinf => pay_isNonneg c amount h hnan hinf, ?_,
    fun clock heap cart hfin => checkout_isNonneg clock heap c cart h hfin, ?_⟩
  · intro amounts hfin
    induction amounts generalizing c with
    | nil => exact h
    | cons amount rest ih =>
      exact ih _ (pay_isNonneg_of_isPayable c amount h (hfin amount (List.mem_cons_self _ _)))
        (fun a ha => hfin a (List.mem_cons_of_mem _ ha))
  · intro clock heap carts hfin
    induction carts generalizing c heap with
    | nil => exact h
    | cons cart rest ih =>
      simp only [allTotalsPayable, Bool.and_eq_true] at hfin
      exact ih _ (checkout_isNonneg clock heap c cart h hfin.1) _ hfin.2

/-- Witness of the amended C10 with Yasser (balance 100): paying 300, then -50,
then 120 leaves a balance that is not negative, and so does his checkout of two
Biscuits. -/
theorem balance_never_negative_amended_witness :
    (payAll yasser [Dbl.fin 300, Dbl.fin (-50), Dbl.fin 120]).balance.isNonneg = true ∧
      (checkout Clock.initial mainHeap yasser
        { items := [⟨1, 2⟩] }).customer.balance.isNonneg = true :=
  ⟨(balance_never_negative_amended yasser (by decide)).2.1
      [Dbl.fin 300, Dbl.fin (-50), Dbl.fin 120] (by decide),
    (balance_never_negative_amended yasser (by decide)).2.2.1 Clock.initial mainHeap
      { items := [⟨1, 2⟩] } (by decide!)⟩

/-! ## Adding to a cart -/

theorem add_rejected (heap : Heap) (cart : Cart) (p : Nat) (qty : Int)
    (h : qty > (heap p).quantity) :
    cart.add heap p qty = (cart, [Msg.insufficientStock (heap p).getName]) := by
  simp [Cart.add, Product.getQuantity, h]

theorem add_accepted (heap : Heap) (cart : Cart) (p : Nat) (qty : Int)
    (h : ¬ qty > (heap p).quantity) :
    cart.add heap p qty = ({ items := cart.items ++ [{ product := p, quantity := qty }] }, []) := by
  simp only [Cart.add, Product.getQuantity, if_neg h]

/-- C11: `Cart.add(product, quantity)` rejects (prints the insufficient-stock
message) iff `quantity` exceeds the product's current stock, and then the
cart's items are unchanged; otherwise nothing is printed and the new item
sequence is the old one followed by the single item `(product, quantity)`.  In
both cases the product store, so every stock, is unchanged: an accepted add
reserves nothing. -/
theorem Cart_add_iff (heap : Heap) (cart : Cart) (p : Nat) (qty : Int) :
    ((cart.addStep heap p qty).out = [Msg.insufficientStock (heap p).getName] ↔
      qty > (heap p).quantity) ∧
    ((cart.addStep heap p qty).out = [] ↔ ¬ qty > (heap p).quantity) ∧
    (qty > (heap p).quantity →
      (cart.addStep heap p qty).cart = cart ∧
        (cart.addStep heap p qty).cart.items = cart.items) ∧
    (¬ qty > (heap p).quantity →
      (cart.addStep heap p qty).cart.items =
        cart.items ++ [{ product := p, quantity := qty }]) ∧
    (cart.addStep heap p qty).heap = heap ∧
    (∀ a, ((cart.addStep heap p qty).heap a).quantity = (heap a).quantity) := by
  by_cases h : qty > (heap p).quantity
  · simp [Cart.addStep, add_rejected heap cart p qty h, h]
  · simp [Cart.addStep, add_accepted heap cart p qty h, h]

/-- Example for C11 on the catalog of `main`: `add(tv, 4)` with 3 TVs in stock is
rejected and leaves the cart as it was; `add(tv, 3)` appends the item; the TV
stock is 3 after either call. -/
theorem Cart_add_iff_witness :
    (cheeseTvCart.addStep mainHeap 2 4).cart = cheeseTvCart ∧
      (Cart.empty.addStep mainHeap 2 3).cart.items = [⟨2, 3⟩] ∧
      ((Cart.empty.addStep mainHeap 2 3).heap 2).quantity = 3 :=
  ⟨((Cart_add_iff mainHeap cheeseTvCart 2 4).2.2.1 (by decide)).1,
    (Cart_add_iff mainHeap Cart.empty 2 3).2.2.2.1 (by decide),
    (Cart_add_iff mainHeap Cart.empty 2 3).2.2.2.2.2 2⟩

theorem addAll_items (heap : Heap) (cart : Cart) (reqs : List (Nat × Int)) :
    (addAll heap cart reqs).items =
      cart.items ++ (acceptedOf heap reqs).map fun req =>
        { product := req.1, quantity := req.2 } := by
  induction reqs generalizing cart with
  | nil => simp [addAll, acceptedOf]
  | cons req rest ih =>
    by_cases h : req.2 > (heap req.1).quantity
    · simp [addAll, Cart.addStep, add_rejected heap cart req.1 req.2 h, ih, acceptedOf,
        List.filter_cons, h]
    · simp [addAll, Cart.addStep, add_accepted heap cart req.1 req.2 h, ih, acceptedOf,
        List.filter_cons, h]

/-- Counterexample to C12 as stated: on the catalog of `main`, the single call
`add(scratchCard, -1)` on an empty cart is accepted (as -1 does not exceed the
stock 20), and the cart then holds an item of quantity -1. -/
theorem cart_items_positive_counterexample :
    (addAll mainHeap Cart.empty [(3, -1)]).items = [⟨3, -1⟩] ∧
      ¬ ∀ it ∈ (addAll mainHeap Cart.empty [(3, -1)]).items, 0 < it.quantity := by
  have h : (addAll mainHeap Cart.empty [(3, -1)]).items = [⟨3, -1⟩] := by decide
  refine ⟨h, ?_⟩
  rw [h]
  decide

/-- C12, amended: every item of a cart built from the empty cart by a sequence
of `Cart.add` calls carries the product and quantity of one of the calls, and
that quantity does not exceed the stock of its product; `add` does not check
the sign, so a call with `quantity <= 0` and `quantity <= stock` inserts an item
with that quantity; and when every call has a quantity `> 0`, every item of the
cart has a quantity `> 0`. -/
theorem cart_items_quantity_amended (heap : Heap) (reqs : List (Nat × Int)) :
    (∀ it ∈ (addAll heap Cart.empty reqs).items,
      (it.product, it.quantity) ∈ reqs ∧ it.quantity ≤ (heap it.product).quantity) ∧
    (∀ (cart : Cart) (p : Nat) (qty : Int), qty ≤ 0 → qty ≤ (heap p).quantity →
      (cart.add heap p qty).1.items = cart.items ++ [{ product := p, quantity := qty }]) ∧
    ((∀ req ∈ reqs, 0 < req.2) →
      ∀ it ∈ (addAll heap Cart.empty reqs).items, 0 < it.quantity) := by
  have hmem : ∀ it ∈ (addAll heap Cart.empty reqs).items,
      (it.product, it.quantity) ∈ reqs ∧ it.quantity ≤ (heap it.product).quantity := by
    intro it hit
    rw [addAll_items] at hit
    simp only [Cart.empty, List.nil_append, List.mem_map, acceptedOf, List.mem_filter] at hit
    obtain ⟨req, ⟨hreq, hacc⟩, rfl⟩ := hit
    refine ⟨hreq, ?_⟩
    simpa using hacc
  refine ⟨hmem, ?_, ?_⟩
  · intro cart p qty _ hle
    rw [add_accepted heap cart p qty (not_lt.mpr hle)]
  · intro hpos it hit
    exact hpos _ (hmem it hit).1

/-- Witness of the amended C12: Ahmed's three calls in `main` all have a positive
quantity, and every item of his cart has one. -/
theorem cart_items_quantity_amended_witness :
    ∀ it ∈ ahmedCart.items, 0 < it.quantity :=
  (cart_items_quantity_amended mainHeap ahmedRequests).2.2 (by decide)

/-! ## Stock after a checkout, seen by later adds -/

theorem ahmedCart_items : ahmedCart.items = [⟨0, 2⟩, ⟨2, 3⟩, ⟨3, 1⟩] := by decide

theorem succeeded_ahmedCart :
    (checkout Clock.initial mainHeap ahmed ahmedCart).succeeded = true := by decide!

/-- C13: if a product has stock `s > 0` and a cart whose only item for that
product requests all `s` units is checked out successfully, the product's
stock afterwards is `0`, below what it was, and every later `Cart.add` of that
product with a quantity `>= 1`, into any cart, is rejected and leaves that cart
as it was. -/
theorem sold_out_add_rejected (clock : Clock) (heap : Heap) (customer : Customer)
    (cart : Cart) (p : Nat)
    (hs : 0 < (heap p).quantity)
    (hitem : (cart.items.filter fun it => it.product = p) =
      [{ product := p, quantity := (heap p).quantity }])
    (hsucc : (checkout clock heap customer cart).succeeded = true) :
    ((checkout clock heap customer cart).heap p).quantity = 0 ∧
    ((checkout clock heap customer cart).heap p).quantity < (heap p).quantity ∧
    ∀ (cart2 : Cart) (qty : Int), 1 ≤ qty →
      cart2.add (checkout clock heap customer cart).heap p qty =
        (cart2, [Msg.insufficientStock (heap p).getName]) := by
  obtain ⟨hne, hexp, hbal⟩ := (succeeded_iff clock heap customer cart).mp hsucc
  have hheap : (checkout clock heap customer cart).heap = reduceStock heap cart.items := by
    rw [checkout_paid clock heap customer cart hne hexp hbal]
  have hany : cart.items.any (fun it => decide (it.product = p)) = true := by
    have hmem : (⟨p, (heap p).quantity⟩ : CartItem) ∈
        cart.items.filter (fun it => decide (it.product = p)) := by
      rw [hitem]
      exact List.mem_singleton.mpr rfl
    exact List.any_eq_true.mpr ⟨_, (List.mem_filter.mp hmem).1, (List.mem_filter.mp hmem).2⟩
  have hq : ((checkout clock heap customer cart).heap p).quantity = 0 := by
    rw [hheap, reduceStock_at, if_pos hany]
    simp [requestedOf, hitem, wrapInt]
  have hn : ((checkout clock heap customer cart).heap p).getName = (heap p).getName := by
    rw [hheap]
    exact (reduceStock_frame heap cart.items p).1
  refine ⟨hq, by rw [hq]; exact hs, ?_⟩
  intro cart2 qty hqty
  have hgt : qty > ((checkout clock heap customer cart).heap p).quantity := by
    rw [hq]
    exact hqty
  rw [add_rejected _ cart2 p qty hgt, hn]

/-- Witness of C13, the scenario of `main`: after Ahmed has bought all 3 TVs,
Yassen's `add(tv, 1)` is rejected, so that his cart holds the ScratchCard only,
and his checkout is charged 50 with a shipping fee of 0. -/
theorem sold_out_add_rejected_witness :
    (∀ cart2 : Cart,
      cart2.add (checkout Clock.initial mainHeap ahmed ahmedCart).heap 2 1 =
        (cart2, [Msg.insufficientStock "TV"])) ∧
    (addAll (checkout Clock.initial mainHeap ahmed ahmedCart).heap Cart.empty
      [(3, 1), (2, 1)]).items = [⟨3, 1⟩] ∧
    (checkout Clock.initial (checkout Clock.initial mainHeap ahmed ahmedCart).heap yassen
      (addAll (checkout Clock.initial mainHeap ahmed ahmedCart).heap Cart.empty
        [(3, 1), (2, 1)])).out =
      [Msg.receipt [⟨1, "ScratchCard", Dbl.fin 50⟩] (Dbl.fin 50) (Dbl.fin 0) (Dbl.fin 50)
        (Dbl.fin 9950)] :=
  ⟨fun cart2 =>
      (sold_out_add_rejected Clock.initial mainHeap ahmed ahmedCart 2 (by decide) (by decide)
        succeeded_ahmedCart).2.2 cart2 1 (by decide),
    by decide!, by decide!⟩


/-! ## Stock and the sign of it -/

theorem requestedOf_le_of_distinct (stock : Nat → Int) (items : List CartItem) (a : Nat)
    (hstock : 0 ≤ stock a)
    (hle : ∀ it ∈ items, it.quantity ≤ stock it.product)
    (hnodup : (items.map fun it => it.product).Nodup) :
    requestedOf items a ≤ stock a := by
  induction items with
  | nil => simpa [requestedOf] using hstock
  | cons x rest ih =>
    rw [List.map_cons, List.nodup_cons] at hnodup
    by_cases hx : x.product = a
    · have hnil : (rest.filter fun it => decide (it.product = a)) = [] := by
        rw [List.filter_eq_nil_iff]
        intro it hit
        have hne : it.product ≠ a := by
          intro h
          exact hnodup.1 (List.mem_map.mpr ⟨it, hit, h.trans hx.symm⟩)
        simpa using hne
      have hxle := hle x (List.mem_cons_self _ _)
      rw [hx] at hxle
      simpa [requestedOf, List.filter_cons, hx, hnil] using hxle
    · have hrest := ih (fun it hit => hle it (List.mem_cons_of_mem _ hit)) hnodup.2
      simpa [requestedOf, List.filter_cons, hx] using hrest

theorem requestedOf_nonneg (items : List CartItem) (a : Nat)
    (h : ∀ it ∈ items, 0 ≤ it.quantity) : 0 ≤ requestedOf items a := by
  unfold requestedOf
  apply List.sum_nonneg
  intro x hx
  obtain ⟨it, hit, rfl⟩ := List.mem_map.mp hx
  exact h it (List.mem_filter.mp hit).1

/-- When every stock is an `int` that is `>= 0`, no request is negative and no two
items of the cart built by the adds refer to the same product, no stock is
negative after the checkout. -/
theorem checkout_stock_nonneg_of_distinct (clock : Clock) (heap : Heap) (customer : Customer)
    (reqs : List (Nat × Int))
    (hstock : ∀ a, 0 ≤ (heap a).quantity ∧ inIntRange (heap a).quantity)
    (hreq : ∀ req ∈ reqs, 0 ≤ req.2)
    (hnodup : ((addAll heap Cart.empty reqs).items.map fun it => it.product).Nodup) (a : Nat) :
    0 ≤ ((checkout clock heap customer (addAll heap Cart.empty reqs)).heap a).quantity := by
  cases hs : (checkout clock heap customer (addAll heap Cart.empty reqs)).succeeded
  · have hrej : (addAll heap Cart.empty reqs).items = [] ∨
        hasExpired clock heap (addAll heap Cart.empty reqs).items = true ∨
        Dbl.gt (totalOf heap (addAll heap Cart.empty reqs).items) customer.balance = true := by
      by_contra hcon
      simp only [not_or, Bool.not_eq_true] at hcon
      have := (succeeded_iff clock heap customer _).mpr ⟨hcon.1, hcon.2.1, hcon.2.2⟩
      rw [hs] at this
      cases this
    rw [(rejected_unchanged clock heap customer _ hrej).2]
    exact (hstock a).1
  · obtain ⟨hne, hexp, hbal⟩ := (succeeded_iff clock heap customer _).mp hs
    rw [checkout_paid clock heap customer _ hne hexp hbal]
    show 0 ≤ (reduceStock heap (addAll heap Cart.empty reqs).items a).quantity
    have hitems : ∀ it ∈ (addAll heap Cart.empty reqs).items,
        0 ≤ it.quantity ∧ it.quantity ≤ (fun b => (heap b).quantity) it.product := by
      intro it hit
      rw [addAll_items] at hit
      simp only [Cart.empty, List.nil_append, List.mem_map, acceptedOf, List.mem_filter] at hit
      obtain ⟨req, ⟨hmem, hacc⟩, rfl⟩ := hit
      exact ⟨hreq req hmem, by simpa using hacc⟩
    have h1 := requestedOf_le_of_distinct (fun b => (heap b).quantity) _ a (hstock a).1
      (fun it hit => (hitems it hit).2) hnodup
    have h2 := requestedOf_nonneg (addAll heap Cart.empty reqs).items a
      (fun it hit => (hitems it hit).1)
    have h1' : requestedOf (addAll heap Cart.empty reqs).items a ≤ (heap a).quantity := h1
    have hr := (hstock a).2
    rw [reduceStock_at]
    split
    · show 0 ≤ wrapInt _
      rw [wrapInt_of_inIntRange]
      · omega
      · unfold inIntRange at hr ⊢
        omega
    · exact (hstock a).1

theorem mainHeap_stock_nonneg (a : Nat) : 0 ≤ (mainHeap a).quantity := by
  unfold mainHeap
  split <;> decide

/-- C14 fails on the code: on the catalog of `main`, where every stock is `>= 0`,
the two calls `add(tv, 2)`, `add(tv, 2)` on an empty cart are both accepted
(each against the stock 3), Ahmed's checkout of that cart succeeds, and the TV
stock afterwards is `3 - 4 = -1`. -/
theorem double_add_stock_negative :
    (∀ a, 0 ≤ (mainHeap a).quantity) ∧
    (addAll mainHeap Cart.empty [(2, 2), (2, 2)]).items = [⟨2, 2⟩, ⟨2, 2⟩] ∧
    (checkout Clock.initial mainHeap ahmed
      (addAll mainHeap Cart.empty [(2, 2), (2, 2)])).succeeded = true ∧
    ((checkout Clock.initial mainHeap ahmed
      (addAll mainHeap Cart.empty [(2, 2), (2, 2)])).heap 2).quantity = -1 :=
  ⟨mainHeap_stock_nonneg, by decide, by decide!, by decide!⟩

/-- Counterexample to C15 as stated: reducing the stock 20 of the ScratchCard by
`INT_MIN` leaves `-2147483628`, not `20 - INT_MIN = 2147483668`; and reducing a
stock of `INT_MIN` by 1, which exceeds it, leaves `INT_MAX`, which is not
negative. -/
theorem reduceQuantity_counterexample :
    ((mainHeap 3).reduceQuantity (-2147483648)).quantity = -2147483628 ∧
    ((mainHeap 3).reduceQuantity (-2147483648)).quantity ≠
      (mainHeap 3).quantity - (-2147483648) ∧
    ((((mainHeap 3).reduceQuantity 20).reduceQuantity (-2147483648)).quantity
      = -2147483648) ∧
    (1 : Int) > (((mainHeap 3).reduceQuantity 20).reduceQuantity (-2147483648)).quantity ∧
    ¬ ((((mainHeap 3).reduceQuantity 20).reduceQuantity (-2147483648)).reduceQuantity
      1).quantity < 0 := by
  refine ⟨by decide, by decide, by decide, by decide, by decide⟩

/-- C15, amended: `reduceQuantity(n)` sets the stock to `s - n` reduced into the
`int` range modulo `2 ^ 32`, so to exactly `s - n` whenever `s - n` lies in the
`int` range, and leaves the name, the price and the variant with its weight and
expiry date unchanged; it has no failure case, and for `n > s` with `s - n` in
the `int` range the resulting stock is negative. -/
theorem reduceQuantity_amended (p : Product) (n : Int) :
    (p.reduceQuantity n).quantity = wrapInt (p.quantity - n) ∧
    inIntRange (p.reduceQuantity n).quantity ∧
    (inIntRange (p.quantity - n) → (p.reduceQuantity n).quantity = p.quantity - n) ∧
    (p.reduceQuantity n).name = p.name ∧
    (p.reduceQuantity n).price = p.price ∧
    (p.reduceQuantity n).variant = p.variant ∧
    (p.reduceQuantity n).getWeight = p.getWeight ∧
    (∀ clock : Clock, (p.reduceQuantity n).isExpired clock = p.isExpired clock) ∧
    (n > p.quantity → inIntRange (p.quantity - n) → (p.reduceQuantity n).quantity < 0) := by
  refine ⟨rfl, wrapInt_inIntRange _, fun h => wrapInt_of_inIntRange _ h, rfl, rfl, rfl, rfl,
    fun _ => rfl, ?_⟩
  intro h hr
  show wrapInt (p.quantity - n) < 0
  rw [wrapInt_of_inIntRange _ hr]
  omega

/-- Example for the amended C15: reducing the stock 3 of the TV by 5 leaves -2, the
TV otherwise as it was. -/
theorem reduceQuantity_amended_witness :
    ((mainHeap 2).reduceQuantity 5).quantity = -2 ∧
      ((mainHeap 2).reduceQuantity 5).quantity < 0 ∧
      ((mainHeap 2).reduceQuantity 5).variant = .shippable (Dbl.fin 7000) :=
  ⟨(reduceQuantity_amended (mainHeap 2) 5).2.2.1 (by decide),
    (reduceQuantity_amended (mainHeap 2) 5).2.2.2.2.2.2.2.2 (by decide) (by decide),
    (reduceQuantity_amended (mainHeap 2) 5).2.2.2.2.2.1⟩

/-! ## The shipping service -/

/-- Counterexample to C17 as stated: the weight `1e-321`, a `double` that is
`> 0`, costs 0, which is no positive multiple of 10 and lies below `w / 100`;
and the weight 142991605586623008, a `double`, costs 1429916055866230, which
also lies below `w / 100`. -/
theorem shippingFee_counterexample :
    (Dbl.lit (1 / 10 ^ 321)).isDouble = true ∧
    Dbl.gt (Dbl.lit (1 / 10 ^ 321)) (Dbl.fin 0) = true ∧
    shippingFee (Dbl.lit (1 / 10 ^ 321)) = Dbl.fin 0 ∧
    (Dbl.fin 142991605586623008).isDouble = true ∧
    shippingFee (Dbl.fin 142991605586623008) = Dbl.fin 1429916055866230 ∧
    (1429916055866230 : ℚ) < 142991605586623008 / 100 := by
  refine ⟨by decide!, by decide!, by decide!, by decide!, by decide!, by norm_num⟩

/-- C17, amended: the shipping fee of checkout is `shippingFee` of the total
weight.  It is 0 for every weight `w` that is not `> 0` (so for `w <= 0`, and
for NaN).  For every `double` weight `w` with `2 ^ -1064 <= w < 2 ^ 53` (from
about `5e-321` up to about `9e15` grams) it is exactly `10 * ceil(w / 1000)`,
a positive whole multiple of 10 with `w / 100 <= fee < w / 100 + 10`.  For every
`w > 0` it is the `double` product `ceil(w / 1000.0) * 10.0`, which is `>= 0`;
with `d` the `double` quotient `w / 1000.0`, whenever `0 < d` and
`10 * ceil(d) < 2 ^ 53` it is exactly `10 * ceil(d)`, a positive whole multiple
of 10 with `10 * d <= fee < 10 * d + 10`.  The fee is monotone in the weight. -/
theorem shippingFee_amended :
    (∀ (clock : Clock) (heap : Heap) (items : List CartItem) (pr : Pricing),
      pricing clock heap items = .ok pr → pr.shipping = shippingFee pr.totalWeight) ∧
    (∀ w : Dbl, Dbl.gt w (Dbl.fin 0) = false → shippingFee w = Dbl.fin 0) ∧
    (∀ w : Dbl, Dbl.le w (Dbl.fin 0) = true → shippingFee w = Dbl.fin 0) ∧
    (∀ a : ℚ, (Dbl.fin a).isDouble = true → (2 : ℚ) ^ (-1064 : Int) ≤ a →
      a < (2 : ℚ) ^ (53 : Int) →
      shippingFee (Dbl.fin a) = Dbl.fin ((10 * ⌈a / 1000⌉ : Int) : ℚ) ∧ 0 < ⌈a / 1000⌉ ∧
        a / 100 ≤ ((10 * ⌈a / 1000⌉ : Int) : ℚ) ∧
        ((10 * ⌈a / 1000⌉ : Int) : ℚ) < a / 100 + 10) ∧
    (∀ w : Dbl, Dbl.gt w (Dbl.fin 0) = true →
      shippingFee w = Dbl.mul (Dbl.ceil (Dbl.div w (Dbl.fin 1000))) (Dbl.fin 10) ∧
        (shippingFee w).isNonneg = true) ∧
    (∀ (w : Dbl) (d : ℚ), Dbl.gt w (Dbl.fin 0) = true →
      Dbl.div w (Dbl.fin 1000) = Dbl.fin d → 0 < d → 10 * ⌈d⌉ < 2 ^ 53 →
      shippingFee w = Dbl.fin ((10 * ⌈d⌉ : Int) : ℚ) ∧ 0 < ⌈d⌉ ∧
        10 * d ≤ ((10 * ⌈d⌉ : Int) : ℚ) ∧ ((10 * ⌈d⌉ : Int) : ℚ) < 10 * d + 10) ∧
    (∀ w1 w2 : Dbl, Dbl.le w1 w2 = true →
      Dbl.le (shippingFee w1) (shippingFee w2) = true) := by
  have hbounds : ∀ d : ℚ, 10 * d ≤ ((10 * ⌈d⌉ : Int) : ℚ) ∧
      ((10 * ⌈d⌉ : Int) : ℚ) < 10 * d + 10 := by
    intro d
    have h1 := Int.le_ceil d
    have h2 := Int.ceil_lt_add_one d
    push_cast
    constructor <;> linarith
  refine ⟨?_, shippingFee_of_not_gt, ?_, ?_, ?_, ?_, shippingFee_mono⟩
  · intro clock heap items pr hpr
    unfold pricing at hpr
    split at hpr
    · cases hpr
    · injection hpr with hpr
      rw [← hpr]
  · intro w hw
    apply shippingFee_of_not_gt
    cases hg : Dbl.gt w (Dbl.fin 0)
    · rfl
    · have hn := Dbl.le_false_of_gt w (Dbl.fin 0) hg
      rw [hw] at hn
      cases hn
  · intro a hdbl hlow h53
    have hr : Dbl.round a = Dbl.fin a := by simpa [Dbl.isDouble] using hdbl
    have ha : 0 < a := lt_of_lt_of_le (zpow_pos (by norm_num) _) hlow
    have hpos : 0 < a / 1000 := div_pos ha (by norm_num)
    have hb := hbounds (a / 1000)
    have he : 10 * (a / 1000) = a / 100 := by ring
    rw [he] at hb
    exact ⟨shippingFee_ceil a hr hlow h53, Int.ceil_pos.mpr hpos, hb.1, hb.2⟩
  · intro w hw
    exact ⟨shippingFee_of_gt w hw, shippingFee_isNonneg w⟩
  · intro w d hw hd hpos hsmall
    exact ⟨shippingFee_exact w d hw hd hpos hsmall, Int.ceil_pos.mpr hpos, hbounds d⟩

/-- Example for the amended C17: 21800g costs 220, within `[218, 228)`; 1000g
costs 10, within `[10, 20)`; 1001g costs no less than 1000g; a weight of -5g
costs 0. -/
theorem shippingFee_amended_witness :
    (shippingFee (Dbl.fin 21800) = Dbl.fin 220 ∧ (21800 : ℚ) / 100 ≤ 220 ∧
        (220 : ℚ) < 21800 / 100 + 10) ∧
      (shippingFee (Dbl.fin 1000) = Dbl.fin 10 ∧ (1000 : ℚ) / 100 ≤ 10 ∧
        (10 : ℚ) < 1000 / 100 + 10) ∧
      shippingFee (Dbl.fin (-5)) = Dbl.fin 0 ∧
      Dbl.le (shippingFee (Dbl.fin 1000)) (shippingFee (Dbl.fin 1001)) = true := by
  have h1 := shippingFee_amended.2.2.2.1 21800 (by decide!)
    (le_trans (zpow_le_one_of_nonpos₀ (by norm_num) (by norm_num)) (by norm_num))
    (by norm_num)
  have h2 := shippingFee_amended.2.2.2.1 1000 (by decide!)
    (le_trans (zpow_le_one_of_nonpos₀ (by norm_num) (by norm_num)) (by norm_num))
    (by norm_num)
  have hc1 : ⌈(21800 / 1000 : ℚ)⌉ = 22 := by decide!
  have hc2 : ⌈(1000 / 1000 : ℚ)⌉ = 1 := by decide!
  rw [hc1] at h1
  rw [hc2] at h2
  refine ⟨⟨by rw [h1.1]; norm_num, by norm_num, by norm_num⟩,
    ⟨by rw [h2.1]; norm_num, by norm_num, by norm_num⟩,
    shippingFee_amended.2.2.1 (Dbl.fin (-5)) (by decide),
    shippingFee_amended.2.2.2.2.2.2 (Dbl.fin 1000) (Dbl.fin 1001) (by decide)⟩

/-! ## The cart after a checkout -/

/-- C18: in every outcome the cart after `checkout` is the cart before it, with
the same item sequence; a successful checkout leaves it non-empty; and a second
checkout of the cart is the checkout of the same items on the product store
and the customer that the first one left. -/
theorem checkout_cart_unchanged (clock : Clock) (heap : Heap) (customer : Customer)
    (cart : Cart) :
    (checkout clock heap customer cart).cart = cart ∧
    (checkout clock heap customer cart).cart.items = cart.items ∧
    ((checkout clock heap customer cart).succeeded = true →
      (checkout clock heap customer cart).cart.items ≠ []) ∧
    checkout clock (checkout clock heap customer cart).heap
        (checkout clock heap customer cart).customer (checkout clock heap customer cart).cart =
      checkout clock (checkout clock heap customer cart).heap
        (checkout clock heap customer cart).customer cart ∧
    checkoutAll clock heap customer [cart, cart] =
      ((checkout clock (checkout clock heap customer cart).heap
          (checkout clock heap customer cart).customer cart).heap,
        (checkout clock (checkout clock heap customer cart).heap
          (checkout clock heap customer cart).customer cart).customer) := by
  have hcart : (checkout clock heap customer cart).cart = cart := by
    by_cases hne : cart.items = []
    · rw [checkout_empty clock heap customer cart hne]
    · cases hexp : hasExpired clock heap cart.items
      · cases hbal : Dbl.gt (totalOf heap cart.items) customer.balance
        · rw [checkout_paid clock heap customer cart hne hexp hbal]
        · rw [checkout_insufficient clock heap customer cart hne hexp hbal]
      · obtain ⟨pre, item, post, hs, hp, hi⟩ := hasExpired_split clock heap cart.items hexp
        rw [checkout_expired clock heap customer cart pre post item hs hp hi]
  refine ⟨hcart, by rw [hcart], ?_, by rw [hcart], rfl⟩
  intro hsucc
  rw [hcart]
  exact ((succeeded_iff clock heap customer cart).mp hsucc).1

/-- Example for C18: Ahmed's cart still holds its three items after his checkout; a
second checkout of it succeeds again, on the reduced balance 2730 and the
reduced stock, and leaves the balance 460 and the TV stock -3. -/
theorem checkout_cart_unchanged_witness :
    (checkout Clock.initial mainHeap ahmed ahmedCart).cart.items =
      [⟨0, 2⟩, ⟨2, 3⟩, ⟨3, 1⟩] ∧
    (checkoutAll Clock.initial mainHeap ahmed [ahmedCart, ahmedCart]).2.balance = Dbl.fin 460 ∧
    ((checkoutAll Clock.initial mainHeap ahmed [ahmedCart, ahmedCart]).1 2).quantity = -3 :=
  ⟨(checkout_cart_unchanged Clock.initial mainHeap ahmed ahmedCart).2.1.trans ahmedCart_items,
    by decide!, by decide!⟩

end Fawry
